import Mathlib

/-!
Shallow embedding of the map-generator / population-simulator core of the
Circle-diagram Go server (sources: the JSON server variant and the PNG image
variant), together with proofs of the specified properties.

Modelling conventions, applied uniformly:

* Go `int` is modelled as `ℤ`; token-type indices are modelled as `ℕ`
  (the data model declares them "small non-negative integers").
* Go `float64` probabilities and speeds are modelled as exact rationals `ℚ`.
* Randomness (`rand.Intn`, `rand.Float64`) is modelled as a deterministic
  oracle: a stream of integer draws and a stream of rational draws.  A call
  `rand.Intn n` consumes one integer draw `k` and yields `k % n`, so every
  value in `[0, n)` is realisable and no other value is; `rand.Float64`
  consumes one rational draw clamped into `[0, 1)`.  Theorems quantify over
  all oracle streams, which covers every realisable execution.
* The candidate positions that the circle packers sample (in the Go code via
  `rand.Intn` arithmetic or via `generateNearbyPosition`'s floating-point
  trigonometry) are drawn from a dedicated position oracle supplying the
  resulting integer pair directly: the placement invariants are enforced
  purely by the acceptance checks, never by the proposal distribution, so
  quantifying over all position streams subsumes every realisable run.
* Go's `map[string][]int` keyed by `fmt.Sprintf("%d,%d", x, y)` is modelled
  as a total function `ℤ × ℤ → List ℕ` defaulting to `[]`: the key format is
  injective in `(x, y)`, and a missing Go map key reads as `nil` (= `[]`)
  and is created on append, which is exactly the total-function semantics.
* `math.Sqrt(dx²+dy²) < float64(r₁+r₂)` on the integer inputs in range is
  modelled as `0 < r₁+r₂ ∧ dx²+dy² < (r₁+r₂)²` (proved equivalent to the
  real-number comparison in `sqrt_lt_sum_iff` below; the float rounding
  cannot cross an integer boundary at these magnitudes).
-/

namespace Fast

/-- Random oracle for the simulator: a stream of integer draws (for
`rand.Intn`) and a stream of rational draws (for `rand.Float64`). -/
structure Rng where
  ints : List ℕ
  rats : List ℚ
deriving DecidableEq

/-- Oracle model of `rand.Intn n`: consume one integer draw and reduce it
modulo `n`, so that exactly the values `0 … n-1` are realisable (`n > 0` at
every call site, mirroring Go's precondition). -/
def nextNat (r : Rng) (n : ℕ) : ℕ × Rng :=
  match r.ints with
  | [] => (0, r)
  | k :: rest => (k % n, ⟨rest, r.rats⟩)

/-- Oracle model of `rand.Float64`: consume one rational draw, clamped into
`[0, 1)` so that exactly the values Go can produce are realisable. -/
def nextRat (r : Rng) : ℚ × Rng :=
  match r.rats with
  | [] => (0, r)
  | q :: rest => ((if 0 ≤ q ∧ q < 1 then q else 0), ⟨r.ints, rest⟩)

/-- Position oracle for the circle packers: a stream of candidate centres. -/
structure PosRng where
  pos : List (ℤ × ℤ)
deriving DecidableEq

/-- Draw the next candidate centre from the position oracle. -/
def nextPos (r : PosRng) : (ℤ × ℤ) × PosRng :=
  match r.pos with
  | [] => ((0, 0), r)
  | p :: rest => (p, ⟨rest⟩)

/-- Go struct `Config` (the fields the core algorithms read). -/
structure Config where
  width : ℤ
  height : ℤ
  spawns : ℤ
  bedrooms : ℤ
  spawnR : ℤ
  bedroomR : ℤ
  maxGap : ℤ
deriving DecidableEq

/-- Go struct `Circle` of the JSON server variant (`Type` is a string tag,
`"spawn"` or `"bedroom"`, empty until `getAllCircles` stamps it). -/
structure Circle where
  x : ℤ
  y : ℤ
  radius : ℤ
  type : String
deriving DecidableEq

/-- Go struct `Cell`: a coordinate plus its ordered token list. -/
structure Cell where
  x : ℤ
  y : ℤ
  vals : List ℕ
deriving DecidableEq

/-- Go func `getCellType`: walk the circles in order; the first circle whose
centre equals the coordinate gives 2 (green/centre), the first circle
containing the coordinate (squared distance ≤ radius²) gives 1
(blue/interior); otherwise 0 (white/exterior). -/
def getCellType (x y : ℤ) (circles : List Circle) : ℕ :=
  match circles with
  | [] => 0
  | circ :: rest =>
    let dx := x - circ.x
    let dy := y - circ.y
    if dx = 0 ∧ dy = 0 then 2
    else if dx * dx + dy * dy ≤ circ.radius * circ.radius then 1
    else getCellType x y rest

/-- Go func `getNeighbors`: the up-to-8 grid-adjacent coordinates (fixed
direction order as in the source) filtered to the bounds. -/
def getNeighbors (x y : ℤ) (cfg : Config) : List (ℤ × ℤ) :=
  let directions : List (ℤ × ℤ) :=
    [(-1, -1), (-1, 0), (-1, 1), (0, -1), (0, 1), (1, -1), (1, 0), (1, 1)]
  (directions.map (fun d => (x + d.1, y + d.2))).filter
    (fun q => decide (0 ≤ q.1) && decide (q.1 < cfg.width)
      && decide (0 ≤ q.2) && decide (q.2 < cfg.height))

/-- Inner loop of Go func `createProbabilitySelector`, carrying the running
type index: for each probability `p`, append `int(p * 50)` copies of the
index.  Go's `int()` truncates toward zero; after the `.toNat` clamp (a
negative count makes the Go `for` loop body run zero times) this agrees with
`Rat.floor` for every input. -/
def selectorAux (idx : ℕ) : List ℚ → List ℕ
  | [] => []
  | p :: rest => List.replicate (Rat.floor (p * 50)).toNat idx ++ selectorAux (idx + 1) rest

/-- Go func `createProbabilitySelector`. -/
def createProbabilitySelector (probabilities : List ℚ) : List ℕ :=
  selectorAux 0 probabilities

/-- Column-major-in-x, row-major-in-y enumeration of the grid, exactly the
`for y … for x …` iteration order of `generateDistribution` and of the
result-collection loop of `moveNumbers`. -/
def gridCoords (cfg : Config) : List (ℤ × ℤ) :=
  (List.range cfg.height.toNat).flatMap
    (fun y : ℕ => (List.range cfg.width.toNat).map (fun x : ℕ => ((x : ℤ), (y : ℤ))))

/-- Draw `n` tokens from the selector (the `for i := 0; i < count; i++` body
of the white-cell branch of `generateDistribution`). -/
def drawTokens (selector : List ℕ) : ℕ → Rng → List ℕ × Rng
  | 0, r => ([], r)
  | n + 1, r =>
    let kr := nextNat r selector.length
    let rest := drawTokens selector n kr.2
    (selector.getD kr.1 0 :: rest.1, rest.2)

/-- Per-coordinate body of `generateDistribution`'s switch: green centre
cells get no tokens (and consume no draws, `continue`), blue interior cells
one drawn token, white exterior cells `1 + rand.Intn(2)` drawn tokens. -/
def cellValsFor (circles : List Circle) (selector : List ℕ) (p : ℤ × ℤ) (r : Rng) :
    List ℕ × Rng :=
  match getCellType p.1 p.2 circles with
  | 2 => ([], r)
  | 1 =>
    let kr := nextNat r selector.length
    ([selector.getD kr.1 0], kr.2)
  | 0 =>
    let dr := nextNat r 2
    drawTokens selector (1 + dr.1) dr.2
  | _ => ([], r)

/-- Grid sweep of `generateDistribution`: cells whose drawn list is empty
are not appended to the result. -/
def genCells (circles : List Circle) (selector : List ℕ) :
    List (ℤ × ℤ) → Rng → List Cell
  | [], _ => []
  | p :: rest, r =>
    let vr := cellValsFor circles selector p r
    if vr.1 = [] then genCells circles selector rest vr.2
    else ⟨p.1, p.2, vr.1⟩ :: genCells circles selector rest vr.2

/-- Go func `generateDistribution`: empty selector short-circuits to the
empty population, otherwise sweep the grid in source order. -/
def generateDistribution (cfg : Config) (circles : List Circle)
    (probabilities : List ℚ) (r : Rng) : List Cell :=
  let selector := createProbabilitySelector probabilities
  if selector = [] then []
  else genCells circles selector (gridCoords cfg) r

/-- Next-state accumulator of `moveNumbers` (Go `map[string][]int`; see the
file comment for why a total function is the faithful model). -/
def NState : Type := ℤ × ℤ → List ℕ

/-- Pointwise update of the next-state accumulator. -/
def updFn (ns : NState) (p : ℤ × ℤ) (v : List ℕ) : NState :=
  fun q => if q = p then v else ns q

/-- Speed lookup of `moveNumbers`: a type index beyond the table falls back
to index 0 (`speeds` is non-empty on this path). -/
def lookupSpeed (speeds : List ℚ) (val : ℕ) : ℚ :=
  let speedIdx := if speeds.length ≤ val then 0 else val
  speeds.getD speedIdx 0

/-- Swap two positions of a list (the body of Go's Fisher–Yates iteration);
out-of-range indices leave the list unchanged (never hit at the call site). -/
def listSwap {α : Type} (l : List α) (i j : ℕ) : List α :=
  match l[i]?, l[j]? with
  | some a, some b => (l.set i b).set j a
  | _, _ => l

/-- Go's backwards Fisher–Yates loop `for i := len-1; i > 0; i--` with
`j := rand.Intn(i+1)`. -/
def shuffleAux {α : Type} (l : List α) (i : ℕ) (r : Rng) : List α × Rng :=
  match i with
  | 0 => (l, r)
  | k + 1 =>
    let jr := nextNat r (k + 2)
    shuffleAux (listSwap l (k + 1) jr.1) k jr.2

/-- Shuffle the neighbour list as `moveNumbers` does. -/
def shuffleList {α : Type} (r : Rng) (l : List α) : List α × Rng :=
  shuffleAux l (l.length - 1) r

/-- Capacity test of `moveNumbers`' inner switch, against the *next-state*
occupancy: white < 2, blue < 1, green never. -/
def canMoveTo (circles : List Circle) (ns : NState) (p : ℤ × ℤ) : Bool :=
  match getCellType p.1 p.2 circles with
  | 0 => decide ((ns p).length < 2)
  | 1 => decide ((ns p).length < 1)
  | _ => false

/-- Per-token body of `moveNumbers`: draw the movement test; on success scan
the shuffled in-bounds neighbours for the first one admitted by the
next-state capacity check; otherwise (or when the test fails) append the
token back to its own coordinate — with no capacity check there. -/
def placeToken (cfg : Config) (circles : List Circle) (speeds : List ℚ)
    (home : ℤ × ℤ) (val : ℕ) (ns : NState) (r : Rng) : NState × Rng :=
  let speed := lookupSpeed speeds val
  let ur := nextRat r
  if ur.1 * 100 < speed then
    let neighbors := getNeighbors home.1 home.2 cfg
    let sh := shuffleList ur.2 neighbors
    match sh.1.find? (fun q => canMoveTo circles ns q) with
    | some q => (updFn ns q (ns q ++ [val]), sh.2)
    | none => (updFn ns home (ns home ++ [val]), sh.2)
  else
    (updFn ns home (ns home ++ [val]), ur.2)

/-- Token loop of `moveNumbers` over one cell's value list. -/
def placeVals (cfg : Config) (circles : List Circle) (speeds : List ℚ)
    (home : ℤ × ℤ) : List ℕ → NState → Rng → NState × Rng
  | [], ns, r => (ns, r)
  | v :: rest, ns, r =>
    let st := placeToken cfg circles speeds home v ns r
    placeVals cfg circles speeds home rest st.1 st.2

/-- Cell loop of `moveNumbers` over the old population. -/
def moveCells (cfg : Config) (circles : List Circle) (speeds : List ℚ) :
    List Cell → NState → Rng → NState × Rng
  | [], ns, r => (ns, r)
  | c :: rest, ns, r =>
    let st := placeVals cfg circles speeds (c.x, c.y) c.vals ns r
    moveCells cfg circles speeds rest st.1 st.2

/-- Result collection of `moveNumbers`: sweep the grid in source order and
keep the non-empty next-state lists. -/
def collectCells (cfg : Config) (ns : NState) : List Cell :=
  (gridCoords cfg).filterMap
    (fun p => if ns p = [] then none else some ⟨p.1, p.2, ns p⟩)

/-- Go func `moveNumbers`: with an empty speed table return the input
unchanged; otherwise process every token of every old cell into a fresh
next-state accumulator and collect it.  (The Go code also builds a `state`
copy of the input map that it never reads again; that dead store is not
modelled.) -/
def moveNumbers (cfg : Config) (circles : List Circle) (cells : List Cell)
    (speeds : List ℚ) (r : Rng) : List Cell :=
  if speeds = [] then cells
  else collectCells cfg (moveCells cfg circles speeds cells (fun _ => []) r).1

/-- Overlap test inside Go's `canPlaceCircle`:
`math.Sqrt(dx²+dy²) < float64(r₁+r₂)`, modelled exactly on the integers
(see `sqrt_lt_sum_iff`). -/
def circleTooClose (a b : Circle) : Bool :=
  let s := a.radius + b.radius
  decide (0 < s) &&
    decide ((a.x - b.x) * (a.x - b.x) + (a.y - b.y) * (a.y - b.y) < s * s)

/-- Go method `canPlaceCircle`: fully in bounds and not too close to any
already-placed circle. -/
def canPlaceCircle (cfg : Config) (existing : List Circle) (c : Circle) : Bool :=
  if c.x - c.radius < 0 ∨ cfg.width ≤ c.x + c.radius
      ∨ c.y - c.radius < 0 ∨ cfg.height ≤ c.y + c.radius then false
  else existing.all (fun e => ! circleTooClose c e)

/-- Go method `getAllCircles`: spawns stamped `"spawn"` followed by bedrooms
stamped `"bedroom"`. -/
def getAllCircles (spawns bedrooms : List Circle) : List Circle :=
  spawns.map (fun c => { c with type := "spawn" })
    ++ bedrooms.map (fun c => { c with type := "bedroom" })

/-- Structured content of the packing-exhausted `fmt.Errorf` message
(`"не удалось разместить spawn %d"` / `"… bedroom %d"`): the circle kind and
its 1-based index. -/
structure PackError where
  kind : String
  idx : ℤ
deriving DecidableEq

/-- One placement attempt budget of `Generate` (3000 proposals); candidate
centres come from the position oracle (see the file comment). -/
def attemptPlace (cfg : Config) (existing : List Circle) (radius : ℤ) :
    ℕ → PosRng → Option Circle × PosRng
  | 0, r => (none, r)
  | a + 1, r =>
    let pr := nextPos r
    let c : Circle := ⟨pr.1.1, pr.1.2, radius, ""⟩
    if canPlaceCircle cfg existing c then (some c, pr.2)
    else attemptPlace cfg existing radius a pr.2

/-- Spawn-placement loop of `Generate` (`for i := len(spawns); i < Spawns`),
fuelled by the number of spawns still to place; a failed attempt budget
aborts with the spawn index `i+1 = len(spawns)+1`. -/
def spawnLoop (cfg : Config) (spawns : List Circle) :
    ℕ → PosRng → Except PackError (List Circle × PosRng)
  | 0, r => .ok (spawns, r)
  | rem + 1, r =>
    let att := attemptPlace cfg (getAllCircles spawns []) cfg.spawnR 3000 r
    match att.1 with
    | some c => spawnLoop cfg (spawns ++ [c]) rem att.2
    | none => .error ⟨"spawn", (spawns.length : ℤ) + 1⟩

/-- Bedroom-placement loop of `Generate` (`for i := 0; i < Bedrooms`); a
failed attempt budget aborts with the bedroom index `i+1 = len(bedrooms)+1`. -/
def bedroomLoop (cfg : Config) (spawns bedrooms : List Circle) :
    ℕ → PosRng → Except PackError (List Circle × PosRng)
  | 0, r => .ok (bedrooms, r)
  | rem + 1, r =>
    let att := attemptPlace cfg (getAllCircles spawns bedrooms) cfg.bedroomR 3000 r
    match att.1 with
    | some c => bedroomLoop cfg spawns (bedrooms ++ [c]) rem att.2
    | none => .error ⟨"bedroom", (bedrooms.length : ℤ) + 1⟩

/-- Opening block of Go method `Generate`: when spawns are requested, seed
one spawn at the bounds' centre (Go integer division truncates toward zero,
`Int.tdiv`) provided it passes `canPlaceCircle`; otherwise start empty. -/
def initialSpawns (cfg : Config) : List Circle :=
  if 0 < cfg.spawns then
    if canPlaceCircle cfg (getAllCircles [] [])
        ⟨Int.tdiv cfg.width 2, Int.tdiv cfg.height 2, cfg.spawnR, ""⟩ then
      [⟨Int.tdiv cfg.width 2, Int.tdiv cfg.height 2, cfg.spawnR, ""⟩]
    else []
  else []

/-- Go method `Generate`: seed the centre spawn, fill the remaining spawns,
then the bedrooms, and return all circles kind-stamped; any placement
failure aborts the whole generation with a `PackError`. -/
def Generate (cfg : Config) (r : PosRng) : Except PackError (List Circle) :=
  match spawnLoop cfg (initialSpawns cfg)
      (cfg.spawns - (initialSpawns cfg).length).toNat r with
  | .error e => .error e
  | .ok sp =>
    match bedroomLoop cfg sp.1 [] cfg.bedrooms.toNat sp.2 with
    | .error e => .error e
    | .ok bd => .ok (getAllCircles sp.1 bd.1)

namespace ImageGen

/-- Go struct `Circle` of the PNG image variant (`IsSpawn` flag). -/
structure Circle where
  x : ℤ
  y : ℤ
  radius : ℤ
  isSpawn : Bool
deriving DecidableEq

/-- Go struct `MapGenerator` of the PNG image variant. -/
structure MapGenerator where
  width : ℤ
  height : ℤ
  spawnCount : ℤ
  bedroomCount : ℤ
  spawnRadius : ℤ
  bedroomRadius : ℤ
  maxGap : ℤ
  cellSize : ℤ
deriving DecidableEq

/-- Go method `intersects`: `math.Sqrt(dx²+dy²) < float64(r₁+r₂)`, modelled
exactly on the integers as in the server variant. -/
def intersects (c1 c2 : Circle) : Bool :=
  let s := c1.radius + c2.radius
  decide (0 < s) &&
    decide ((c1.x - c2.x) * (c1.x - c2.x) + (c1.y - c2.y) * (c1.y - c2.y) < s * s)

/-- Go closure `tryPlace` of `generateCircles`: up to `maxAttempts = 50000`
proposals (position-oracle candidates, uniform in the source), appending a
candidate whenever it intersects no already-accepted circle, until `count`
circles exist. -/
def tryPlaceLoop (count radius : ℤ) (isSpawn : Bool) :
    ℕ → List Circle → PosRng → List Circle × PosRng
  | 0, circles, r => (circles, r)
  | a + 1, circles, r =>
    if (circles.length : ℤ) < count then
      let pr := nextPos r
      let c : Circle := ⟨pr.1.1, pr.1.2, radius, isSpawn⟩
      if circles.all (fun e => ! intersects c e) then
        tryPlaceLoop count radius isSpawn a (circles ++ [c]) pr.2
      else
        tryPlaceLoop count radius isSpawn a circles pr.2
    else (circles, r)

/-- Go method `generateCircles`: place spawn circles up to `SpawnCount`,
then bedroom circles up to the running total `SpawnCount + BedroomCount`;
fail if the total was not reached. -/
def generateCircles (mg : MapGenerator) (r : PosRng) : Except String (List Circle) :=
  let s1 := tryPlaceLoop mg.spawnCount mg.spawnRadius true 50000 [] r
  let s2 := tryPlaceLoop (mg.spawnCount + mg.bedroomCount) mg.bedroomRadius false
    50000 s1.1 s1.2
  if (s2.1.length : ℤ) < mg.spawnCount + mg.bedroomCount then
    .error "невозможно разместить все круги без пересечений"
  else .ok s2.1

end ImageGen

/-! Statement-level vocabulary (derived from the spec's wording, defined on
the embedded data). -/

/-- Tokens stored at a coordinate: concatenation of the value lists of every
population entry carrying that coordinate. -/
def occAt (cells : List Cell) (p : ℤ × ℤ) : List ℕ :=
  cells.flatMap (fun c => if c.x = p.1 ∧ c.y = p.2 then c.vals else [])

/-- Total token count of a population. -/
def totalTokens (cells : List Cell) : ℕ :=
  (cells.map (fun c => c.vals.length)).sum

/-- Total token count held by a next-state accumulator over the grid. -/
def gridSum (cfg : Config) (ns : NState) : ℕ :=
  ((gridCoords cfg).map (fun p => (ns p).length)).sum

/-- Zone capacity by cell type: exterior 2, interior 1, centre 0. -/
def zoneCap : ℕ → ℕ
  | 0 => 2
  | 1 => 1
  | _ => 0

/-- A coordinate lies within the bounds. -/
def inBoundsP (cfg : Config) (p : ℤ × ℤ) : Prop :=
  0 ≤ p.1 ∧ p.1 < cfg.width ∧ 0 ≤ p.2 ∧ p.2 < cfg.height

instance (cfg : Config) (p : ℤ × ℤ) : Decidable (inBoundsP cfg p) := by
  unfold inBoundsP; infer_instance

/-- All entries of a population lie within the bounds. -/
def popInBounds (cfg : Config) (cells : List Cell) : Prop :=
  ∀ c ∈ cells, inBoundsP cfg (c.x, c.y)

instance (cfg : Config) (cells : List Cell) : Decidable (popInBounds cfg cells) := by
  unfold popInBounds; infer_instance

/-- Euclidean distance between two circles' centres is at least the sum of
their radii (stated over the reals, as the spec words it). -/
def circlesFarApart (a b : Circle) : Prop :=
  ((a.radius + b.radius : ℤ) : ℝ) ≤
    Real.sqrt (((a.x - b.x) * (a.x - b.x) + (a.y - b.y) * (a.y - b.y) : ℤ) : ℝ)

/-- Integer form of the non-overlap guarantee (equivalent to
`circlesFarApart`; trivial when the radius sum is non-positive). -/
def nonOverlapSq (a b : Circle) : Prop :=
  a.radius + b.radius ≤ 0 ∨
    (a.radius + b.radius) * (a.radius + b.radius) ≤
      (a.x - b.x) * (a.x - b.x) + (a.y - b.y) * (a.y - b.y)

/-- The circle's centre ± radius stays inside the bounds in both axes. -/
def containedIn (cfg : Config) (c : Circle) : Prop :=
  0 ≤ c.x - c.radius ∧ c.x + c.radius < cfg.width ∧
    0 ≤ c.y - c.radius ∧ c.y + c.radius < cfg.height

instance (a b : Circle) : Decidable (nonOverlapSq a b) := by
  unfold nonOverlapSq; infer_instance

instance (cfg : Config) (c : Circle) : Decidable (containedIn cfg c) := by
  unfold containedIn; infer_instance

namespace ImageGen

/-- Euclidean distance between two circles' centres is at least the sum of
their radii (image variant). -/
def circlesFarApart (a b : Circle) : Prop :=
  ((a.radius + b.radius : ℤ) : ℝ) ≤
    Real.sqrt (((a.x - b.x) * (a.x - b.x) + (a.y - b.y) * (a.y - b.y) : ℤ) : ℝ)

/-- Integer form of the non-overlap guarantee (image variant). -/
def nonOverlapSq (a b : Circle) : Prop :=
  a.radius + b.radius ≤ 0 ∨
    (a.radius + b.radius) * (a.radius + b.radius) ≤
      (a.x - b.x) * (a.x - b.x) + (a.y - b.y) * (a.y - b.y)

end ImageGen

/-! Basic facts about the embedded operations. -/

theorem getCellType_total (x y : ℤ) (circles : List Circle) :
    getCellType x y circles = 0 ∨ getCellType x y circles = 1 ∨
      getCellType x y circles = 2 := by
  induction circles with
  | nil => left; rfl
  | cons c rest ih =>
    simp only [getCellType]
    split
    · right; right; rfl
    · split
      · right; left; rfl
      · exact ih

theorem mem_getNeighbors {x y : ℤ} {cfg : Config} {q : ℤ × ℤ}
    (h : q ∈ getNeighbors x y cfg) : inBoundsP cfg q := by
  unfold getNeighbors at h
  have hq := List.of_mem_filter h
  simp only [Bool.and_eq_true, decide_eq_true_eq] at hq
  exact ⟨hq.1.1.1, hq.1.1.2, hq.1.2, hq.2⟩

theorem mem_of_mem_listSwap {α : Type} {l : List α} {i j : ℕ} {a : α}
    (h : a ∈ listSwap l i j) : a ∈ l := by
  unfold listSwap at h
  split at h
  case _ b c hb hc =>
    rcases List.mem_or_eq_of_mem_set h with h' | rfl
    · rcases List.mem_or_eq_of_mem_set h' with h'' | rfl
      · exact h''
      · exact List.getElem?_mem hc
    · exact List.getElem?_mem hb
  case _ => exact h

theorem mem_of_mem_shuffleAux {α : Type} :
    ∀ (i : ℕ) (l : List α) (r : Rng) {a : α}, a ∈ (shuffleAux l i r).1 → a ∈ l := by
  intro i
  induction i with
  | zero => intro l r a h; exact h
  | succ k ih =>
    intro l r a h
    simp only [shuffleAux] at h
    exact mem_of_mem_listSwap (ih _ _ h)

theorem mem_of_mem_shuffleList {α : Type} {r : Rng} {l : List α} {a : α}
    (h : a ∈ (shuffleList r l).1) : a ∈ l :=
  mem_of_mem_shuffleAux _ _ _ h

theorem mem_gridCoords {cfg : Config} {p : ℤ × ℤ} :
    p ∈ gridCoords cfg ↔ inBoundsP cfg p := by
  unfold gridCoords inBoundsP
  constructor
  · intro h
    rw [List.mem_flatMap] at h
    obtain ⟨y, hy, hmem⟩ := h
    rw [List.mem_map] at hmem
    obtain ⟨x, hx, rfl⟩ := hmem
    rw [List.mem_range] at hy hx
    refine ⟨?_, ?_, ?_, ?_⟩
    · show (0 : ℤ) ≤ (x : ℤ)
      omega
    · show ((x : ℤ)) < cfg.width
      omega
    · show (0 : ℤ) ≤ (y : ℤ)
      omega
    · show ((y : ℤ)) < cfg.height
      omega
  · rintro ⟨h1, h2, h3, h4⟩
    rw [List.mem_flatMap]
    refine ⟨p.2.toNat, List.mem_range.mpr (by omega), ?_⟩
    rw [List.mem_map]
    refine ⟨p.1.toNat, List.mem_range.mpr (by omega), ?_⟩
    have e1 : ((p.1.toNat : ℤ)) = p.1 := Int.toNat_of_nonneg h1
    have e2 : ((p.2.toNat : ℤ)) = p.2 := Int.toNat_of_nonneg h3
    calc ((p.1.toNat : ℤ), (p.2.toNat : ℤ)) = (p.1, p.2) := by rw [e1, e2]
      _ = p := rfl

theorem gridCoords_nodup (cfg : Config) : (gridCoords cfg).Nodup := by
  unfold gridCoords
  rw [List.nodup_flatMap]
  constructor
  · intro y _
    refine List.Nodup.map ?_ (List.nodup_range _)
    intro a b hab
    have h1 : ((a : ℤ)) = (b : ℤ) := congrArg Prod.fst hab
    exact_mod_cast h1
  · refine List.Pairwise.imp ?_ (List.pairwise_lt_range _)
    intro y1 y2 hlt p hp1 hp2
    simp only [List.mem_map, List.mem_range] at hp1 hp2
    obtain ⟨x1, _, e1⟩ := hp1
    obtain ⟨x2, _, e2⟩ := hp2
    have h1 : ((y1 : ℤ)) = p.2 := congrArg Prod.snd e1
    have h2 : ((y2 : ℤ)) = p.2 := congrArg Prod.snd e2
    omega

theorem updFn_same (ns : NState) (p : ℤ × ℤ) (v : List ℕ) : updFn ns p v p = v := by
  unfold updFn
  simp

theorem updFn_other {ns : NState} {p q : ℤ × ℤ} (v : List ℕ) (h : q ≠ p) :
    updFn ns p v q = ns q := by
  unfold updFn
  simp [h]

/-! Token-count bookkeeping: every append lands on an in-bounds coordinate
and raises the grid total by exactly one. -/

theorem sum_map_len_updFn_append {l : List (ℤ × ℤ)} {ns : NState} {p : ℤ × ℤ}
    {v : ℕ} (hnd : l.Nodup) (hp : p ∈ l) :
    ((l.map (fun q => ((updFn ns p (ns p ++ [v])) q).length)).sum)
      = (l.map (fun q => (ns q).length)).sum + 1 := by
  induction l with
  | nil => cases hp
  | cons a rest ih =>
    rcases List.mem_cons.mp hp with rfl | hp'
    · have hnotin : p ∉ rest := (List.nodup_cons.mp hnd).1
      simp only [List.map_cons, List.sum_cons, updFn_same]
      have hrest : rest.map (fun q => ((updFn ns p (ns p ++ [v])) q).length)
          = rest.map (fun q => (ns q).length) := by
        apply List.map_congr_left
        intro q hq
        have hqp : q ≠ p := fun h => hnotin (h ▸ hq)
        rw [updFn_other _ hqp]
      rw [hrest, List.length_append]
      simp only [List.length_singleton]
      omega
    · have hne : a ≠ p := by
        intro h
        exact (List.nodup_cons.mp hnd).1 (h ▸ hp')
      simp only [List.map_cons, List.sum_cons]
      rw [updFn_other _ hne, ih (List.nodup_cons.mp hnd).2 hp']
      omega

theorem gridSum_updFn_append {cfg : Config} {ns : NState} {p : ℤ × ℤ} {v : ℕ}
    (hp : inBoundsP cfg p) :
    gridSum cfg (updFn ns p (ns p ++ [v])) = gridSum cfg ns + 1 :=
  sum_map_len_updFn_append (gridCoords_nodup cfg) (mem_gridCoords.mpr hp)

theorem placeToken_gridSum {cfg : Config} {circles : List Circle} {speeds : List ℚ}
    {home : ℤ × ℤ} {val : ℕ} {ns : NState} {r : Rng} (hh : inBoundsP cfg home) :
    gridSum cfg (placeToken cfg circles speeds home val ns r).1 = gridSum cfg ns + 1 := by
  unfold placeToken
  dsimp only
  split
  · split
    case _ q hq =>
      have hmem : q ∈ getNeighbors home.1 home.2 cfg :=
        mem_of_mem_shuffleList (List.mem_of_find?_eq_some hq)
      exact gridSum_updFn_append (mem_getNeighbors hmem)
    case _ => exact gridSum_updFn_append hh
  · exact gridSum_updFn_append hh

theorem placeVals_gridSum {cfg : Config} {circles : List Circle} {speeds : List ℚ}
    {home : ℤ × ℤ} (hh : inBoundsP cfg home) :
    ∀ (vals : List ℕ) (ns : NState) (r : Rng),
      gridSum cfg (placeVals cfg circles speeds home vals ns r).1
        = gridSum cfg ns + vals.length := by
  intro vals
  induction vals with
  | nil => intro ns r; rfl
  | cons v rest ih =>
    intro ns r
    simp only [placeVals]
    rw [ih, placeToken_gridSum hh, List.length_cons]
    omega

theorem moveCells_gridSum {cfg : Config} {circles : List Circle} {speeds : List ℚ} :
    ∀ (cells : List Cell) (ns : NState) (r : Rng), popInBounds cfg cells →
      gridSum cfg (moveCells cfg circles speeds cells ns r).1
        = gridSum cfg ns + totalTokens cells := by
  intro cells
  induction cells with
  | nil => intro ns r _; rfl
  | cons c rest ih =>
    intro ns r hwf
    simp only [moveCells]
    rw [ih _ _ (fun d hd => hwf d (List.mem_cons_of_mem c hd)),
      placeVals_gridSum (hwf c (List.mem_cons_self c rest))]
    unfold totalTokens
    simp only [List.map_cons, List.sum_cons]
    omega

theorem totalTokens_collectCells (cfg : Config) (ns : NState) :
    totalTokens (collectCells cfg ns) = gridSum cfg ns := by
  unfold collectCells gridSum totalTokens
  induction gridCoords cfg with
  | nil => rfl
  | cons p rest ih =>
    by_cases h : ns p = []
    · rw [List.filterMap_cons, if_pos h]
      dsimp only
      rw [ih, List.map_cons, List.sum_cons, h]
      simp
    · rw [List.filterMap_cons, if_neg h]
      dsimp only
      simp only [List.map_cons, List.sum_cons, ih]

theorem gridSum_empty (cfg : Config) : gridSum cfg (fun _ => []) = 0 := by
  unfold gridSum
  apply List.sum_eq_zero
  intro x hx
  simp only [List.mem_map] at hx
  obtain ⟨p, _, rfl⟩ := hx
  rfl

/-! Occupancy bookkeeping and the per-step capacity bound. -/

theorem occAt_cons (c : Cell) (cells : List Cell) (p : ℤ × ℤ) :
    occAt (c :: cells) p
      = (if c.x = p.1 ∧ c.y = p.2 then c.vals else []) ++ occAt cells p := by
  unfold occAt
  rw [List.flatMap_cons]

theorem occAt_eq_nil {cells : List Cell} {p : ℤ × ℤ}
    (h : ∀ c ∈ cells, ¬(c.x = p.1 ∧ c.y = p.2)) : occAt cells p = [] := by
  induction cells with
  | nil => rfl
  | cons c rest ih =>
    rw [occAt_cons, if_neg (h c (List.mem_cons_self c rest))]
    exact ih (fun d hd => h d (List.mem_cons_of_mem c hd))

theorem occAt_filterMap_grid (ns : NState) (p : ℤ × ℤ) :
    ∀ (l : List (ℤ × ℤ)), l.Nodup →
      occAt (l.filterMap (fun q => if ns q = [] then none else some ⟨q.1, q.2, ns q⟩)) p
        = if p ∈ l then ns p else [] := by
  intro l
  induction l with
  | nil => intro _; rfl
  | cons q rest ih =>
    intro hnd
    have hq : q ∉ rest := (List.nodup_cons.mp hnd).1
    have ihr := ih (List.nodup_cons.mp hnd).2
    rw [List.filterMap_cons]
    by_cases hz : ns q = []
    · rw [if_pos hz]
      dsimp only
      rw [ihr]
      by_cases hpq : p = q
      · subst hpq
        simp [hq, hz]
      · simp [hpq]
    · rw [if_neg hz]
      dsimp only
      by_cases hpq : p = q
      · subst hpq
        rw [occAt_cons]
        dsimp only
        rw [if_pos ⟨rfl, rfl⟩, ihr, if_neg hq, if_pos (List.mem_cons_self p rest)]
        simp
      · rw [occAt_cons]
        dsimp only
        have hcond : ¬(q.1 = p.1 ∧ q.2 = p.2) := by
          intro hc
          exact hpq (Prod.ext hc.1 hc.2).symm
        rw [if_neg hcond, ihr]
        simp [hpq]

theorem occAt_collectCells (cfg : Config) (ns : NState) (p : ℤ × ℤ) :
    occAt (collectCells cfg ns) p = if p ∈ gridCoords cfg then ns p else [] :=
  occAt_filterMap_grid ns p (gridCoords cfg) (gridCoords_nodup cfg)

theorem canMoveTo_len_lt {circles : List Circle} {ns : NState} {p : ℤ × ℤ}
    (h : canMoveTo circles ns p = true) :
    (ns p).length + 1 ≤ zoneCap (getCellType p.1 p.2 circles) := by
  unfold canMoveTo at h
  rcases getCellType_total p.1 p.2 circles with h0 | h1 | h2
  · rw [h0] at h ⊢
    simp only [decide_eq_true_eq] at h
    simp only [zoneCap]
    omega
  · rw [h1] at h ⊢
    simp only [decide_eq_true_eq] at h
    simp only [zoneCap]
    omega
  · rw [h2] at h
    simp at h

theorem updFn_append_len_le (ns : NState) (home p : ℤ × ℤ) (val : ℕ) (cap : ℕ) :
    ((updFn ns home (ns home ++ [val])) p).length
      ≤ max ((ns p).length) cap + (if home = p then 1 else 0) := by
  by_cases h : home = p
  · subst h
    rw [updFn_same, List.length_append, if_pos rfl]
    simp only [List.length_singleton]
    omega
  · rw [updFn_other _ (fun hh => h hh.symm), if_neg h]
    omega

theorem placeToken_len_le (cfg : Config) (circles : List Circle) (speeds : List ℚ)
    (home : ℤ × ℤ) (val : ℕ) (ns : NState) (r : Rng) (p : ℤ × ℤ) :
    ((placeToken cfg circles speeds home val ns r).1 p).length
      ≤ max ((ns p).length) (zoneCap (getCellType p.1 p.2 circles))
        + (if home = p then 1 else 0) := by
  unfold placeToken
  dsimp only
  split
  · split
    case _ q hq =>
      dsimp only
      by_cases hqp : q = p
      · subst hqp
        rw [updFn_same, List.length_append]
        have hcan := canMoveTo_len_lt (List.find?_some hq)
        simp only [List.length_singleton]
        omega
      · rw [updFn_other _ (fun hh => hqp hh.symm)]
        split <;> omega
    case _ => exact updFn_append_len_le ns home p val _
  · exact updFn_append_len_le ns home p val _

theorem placeVals_len_le (cfg : Config) (circles : List Circle) (speeds : List ℚ)
    (home : ℤ × ℤ) :
    ∀ (vals : List ℕ) (ns : NState) (r : Rng) (p : ℤ × ℤ),
      ((placeVals cfg circles speeds home vals ns r).1 p).length
        ≤ max ((ns p).length) (zoneCap (getCellType p.1 p.2 circles))
          + (if home = p then vals.length else 0) := by
  intro vals
  induction vals with
  | nil =>
    intro ns r p
    simp only [placeVals]
    split <;> omega
  | cons v rest ih =>
    intro ns r p
    simp only [placeVals]
    have h1 := placeToken_len_le cfg circles speeds home v ns r p
    have h2 := ih (placeToken cfg circles speeds home v ns r).1
      (placeToken cfg circles speeds home v ns r).2 p
    rw [List.length_cons]
    by_cases hp : home = p
    · rw [if_pos hp] at h1 h2 ⊢
      omega
    · rw [if_neg hp] at h1 h2 ⊢
      omega

theorem moveCells_len_le (cfg : Config) (circles : List Circle) (speeds : List ℚ) :
    ∀ (cells : List Cell) (ns : NState) (r : Rng) (p : ℤ × ℤ),
      ((moveCells cfg circles speeds cells ns r).1 p).length
        ≤ max ((ns p).length) (zoneCap (getCellType p.1 p.2 circles))
          + (occAt cells p).length := by
  intro cells
  induction cells with
  | nil =>
    intro ns r p
    simp only [moveCells, occAt]
    simp
  | cons c rest ih =>
    intro ns r p
    simp only [moveCells]
    have h2 := ih (placeVals cfg circles speeds (c.x, c.y) c.vals ns r).1
      (placeVals cfg circles speeds (c.x, c.y) c.vals ns r).2 p
    have h1 := placeVals_len_le cfg circles speeds (c.x, c.y) c.vals ns r p
    rw [occAt_cons, List.length_append]
    by_cases hc : c.x = p.1 ∧ c.y = p.2
    · have hcp : ((c.x, c.y) : ℤ × ℤ) = p := Prod.ext hc.1 hc.2
      rw [if_pos hcp] at h1
      rw [if_pos hc]
      omega
    · have hcp : ((c.x, c.y) : ℤ × ℤ) ≠ p := by
        intro hh
        exact hc ⟨congrArg Prod.fst hh, congrArg Prod.snd hh⟩
      rw [if_neg hcp] at h1
      rw [if_neg hc]
      omega

/-! Distribution: shape of the drawn value lists and of the sparse result. -/

theorem nextNat_lt {r : Rng} {n : ℕ} (hn : 0 < n) : (nextNat r n).1 < n := by
  unfold nextNat
  obtain ⟨ints, rats⟩ := r
  cases ints with
  | nil => exact hn
  | cons k rest => exact Nat.mod_lt _ hn

theorem getD_mem {l : List ℕ} {k : ℕ} (h : k < l.length) : l.getD k 0 ∈ l := by
  rw [List.getD_eq_getElem l 0 h]
  exact List.getElem_mem h

theorem drawTokens_length (selector : List ℕ) :
    ∀ (n : ℕ) (r : Rng), ((drawTokens selector n r).1).length = n := by
  intro n
  induction n with
  | zero => intro r; rfl
  | succ m ih =>
    intro r
    simp only [drawTokens, List.length_cons, ih]

theorem drawTokens_mem {selector : List ℕ} (hsel : selector ≠ []) :
    ∀ (n : ℕ) (r : Rng) (t : ℕ), t ∈ (drawTokens selector n r).1 → t ∈ selector := by
  intro n
  induction n with
  | zero => intro r t ht; cases ht
  | succ m ih =>
    intro r t ht
    simp only [drawTokens, List.mem_cons] at ht
    rcases ht with rfl | ht'
    · exact getD_mem (nextNat_lt (List.length_pos.mpr hsel))
    · exact ih _ _ ht'

theorem cellValsFor_center {circles : List Circle} {selector : List ℕ} {p : ℤ × ℤ}
    {r : Rng} (h : getCellType p.1 p.2 circles = 2) :
    (cellValsFor circles selector p r).1 = [] := by
  unfold cellValsFor
  rw [h]

theorem cellValsFor_interior {circles : List Circle} {selector : List ℕ} {p : ℤ × ℤ}
    {r : Rng} (hsel : selector ≠ []) (h : getCellType p.1 p.2 circles = 1) :
    ((cellValsFor circles selector p r).1).length = 1 ∧
      ∀ t ∈ (cellValsFor circles selector p r).1, t ∈ selector := by
  unfold cellValsFor
  rw [h]
  refine ⟨rfl, ?_⟩
  intro t ht
  simp only [List.mem_singleton] at ht
  subst ht
  exact getD_mem (nextNat_lt (List.length_pos.mpr hsel))

theorem cellValsFor_exterior {circles : List Circle} {selector : List ℕ} {p : ℤ × ℤ}
    {r : Rng} (hsel : selector ≠ []) (h : getCellType p.1 p.2 circles = 0) :
    (1 ≤ ((cellValsFor circles selector p r).1).length ∧
      ((cellValsFor circles selector p r).1).length ≤ 2) ∧
      ∀ t ∈ (cellValsFor circles selector p r).1, t ∈ selector := by
  unfold cellValsFor
  rw [h]
  dsimp only
  constructor
  · rw [drawTokens_length]
    have := nextNat_lt (r := r) (n := 2) (by omega)
    omega
  · intro t ht
    exact drawTokens_mem hsel _ _ _ ht

theorem genCells_coords {circles : List Circle} {selector : List ℕ} :
    ∀ (l : List (ℤ × ℤ)) (r : Rng) (c : Cell), c ∈ genCells circles selector l r →
      (c.x, c.y) ∈ l ∧ c.vals ≠ [] := by
  intro l
  induction l with
  | nil => intro r c hc; cases hc
  | cons p rest ih =>
    intro r c hc
    simp only [genCells] at hc
    by_cases hz : (cellValsFor circles selector p r).1 = []
    · rw [if_pos hz] at hc
      obtain ⟨hmem, hne⟩ := ih _ _ hc
      exact ⟨List.mem_cons_of_mem p hmem, hne⟩
    · rw [if_neg hz] at hc
      rcases List.mem_cons.mp hc with rfl | hc'
      · exact ⟨List.mem_cons_self _ _, hz⟩
      · obtain ⟨hmem, hne⟩ := ih _ _ hc'
        exact ⟨List.mem_cons_of_mem p hmem, hne⟩

theorem genCells_occAt_nil {circles : List Circle} {selector : List ℕ}
    {l : List (ℤ × ℤ)} {r : Rng} {p : ℤ × ℤ} (hp : p ∉ l) :
    occAt (genCells circles selector l r) p = [] := by
  apply occAt_eq_nil
  intro c hc hcond
  have hmem := (genCells_coords l r c hc).1
  have hcp : ((c.x, c.y) : ℤ × ℤ) = p := Prod.ext hcond.1 hcond.2
  rw [hcp] at hmem
  exact hp hmem

theorem genCells_occAt {circles : List Circle} {selector : List ℕ} :
    ∀ (l : List (ℤ × ℤ)) (r : Rng), l.Nodup → ∀ p ∈ l,
      ∃ r' : Rng, occAt (genCells circles selector l r) p
        = (cellValsFor circles selector p r').1 := by
  intro l
  induction l with
  | nil => intro r _ p hp; cases hp
  | cons q rest ih =>
    intro r hnd p hp
    have hqrest : q ∉ rest := (List.nodup_cons.mp hnd).1
    simp only [genCells]
    rcases List.mem_cons.mp hp with rfl | hp'
    · refine ⟨r, ?_⟩
      by_cases hz : (cellValsFor circles selector p r).1 = []
      · rw [if_pos hz, genCells_occAt_nil hqrest, hz]
      · rw [if_neg hz, occAt_cons]
        dsimp only
        rw [if_pos ⟨rfl, rfl⟩, genCells_occAt_nil hqrest, List.append_nil]
    · have hpq : p ≠ q := fun h => hqrest (h ▸ hp')
      obtain ⟨r', hr'⟩ := ih (cellValsFor circles selector q r).2
        (List.nodup_cons.mp hnd).2 p hp'
      refine ⟨r', ?_⟩
      by_cases hz : (cellValsFor circles selector q r).1 = []
      · rw [if_pos hz, hr']
      · rw [if_neg hz, occAt_cons]
        dsimp only
        have hcond : ¬(q.1 = p.1 ∧ q.2 = p.2) := by
          intro hc
          exact hpq (Prod.ext hc.1 hc.2).symm
        rw [if_neg hcond, hr', List.nil_append]

/-! Selector: exact weights. -/

theorem ratFloor_eq_intFloor (q : ℚ) : Rat.floor q = ⌊q⌋ := by
  rw [Rat.floor_def', ← Rat.floor_def]

theorem selectorAux_mem_bounds :
    ∀ (l : List ℚ) (n : ℕ) (x : ℕ), x ∈ selectorAux n l → n ≤ x ∧ x < n + l.length := by
  intro l
  induction l with
  | nil => intro n x hx; cases hx
  | cons p rest ih =>
    intro n x hx
    simp only [selectorAux, List.mem_append] at hx
    rcases hx with hx | hx
    · have := List.eq_of_mem_replicate hx
      subst this
      simp only [List.length_cons]
      omega
    · have := ih (n + 1) x hx
      simp only [List.length_cons]
      omega

theorem selectorAux_count :
    ∀ (l : List ℚ) (n k : ℕ), k < l.length →
      (selectorAux n l).count (n + k) = (Rat.floor (l.getD k 0 * 50)).toNat := by
  intro l
  induction l with
  | nil => intro n k hk; cases hk
  | cons p rest ih =>
    intro n k hk
    simp only [selectorAux, List.count_append]
    cases k with
    | zero =>
      have h1 : (List.replicate (Rat.floor (p * 50)).toNat n).count (n + 0)
          = (Rat.floor (p * 50)).toNat := by
        simp [List.count_replicate]
      have h2 : (selectorAux (n + 1) rest).count (n + 0) = 0 := by
        rw [List.count_eq_zero]
        intro hmem
        have := (selectorAux_mem_bounds rest (n + 1) _ hmem).1
        omega
      rw [h1, h2]
      rfl
    | succ m =>
      have h1 : (List.replicate (Rat.floor (p * 50)).toNat n).count (n + (m + 1)) = 0 := by
        rw [List.count_eq_zero]
        intro hmem
        have := List.eq_of_mem_replicate hmem
        omega
      have h2 : n + (m + 1) = (n + 1) + m := by omega
      rw [h1, h2, ih (n + 1) m (by simpa using hk)]
      simp [List.getD_cons_succ]

theorem createProbabilitySelector_count {probabilities : List ℚ} {i : ℕ}
    (hi : i < probabilities.length) :
    (createProbabilitySelector probabilities).count i
      = (Rat.floor (probabilities.getD i 0 * 50)).toNat := by
  have := selectorAux_count probabilities 0 i hi
  simpa using this

theorem createProbabilitySelector_all_zero {probabilities : List ℚ}
    (h : ∀ p ∈ probabilities, p = 0) : createProbabilitySelector probabilities = [] := by
  unfold createProbabilitySelector
  suffices haux : ∀ (l : List ℚ), (∀ p ∈ l, p = 0) → ∀ n : ℕ, selectorAux n l = [] by
    exact haux probabilities h 0
  intro l
  induction l with
  | nil => intro _ n; rfl
  | cons p rest ih =>
    intro hl n
    have hp : p = 0 := hl p (List.mem_cons_self p rest)
    subst hp
    simp only [selectorAux]
    have hz : ((0 : ℚ)) * 50 = 0 := zero_mul 50
    rw [hz]
    have hfl : Rat.floor (0 : ℚ) = 0 := by
      rw [ratFloor_eq_intFloor]
      exact Int.floor_zero
    rw [hfl]
    simp only [Int.toNat_zero, List.replicate_zero, List.nil_append]
    exact ih (fun q hq => hl q (List.mem_cons_of_mem _ hq)) (n + 1)

/-! Geometry: the float comparison of the sources versus its integer model. -/

theorem sqrt_lt_sum_iff {d2 s : ℤ} :
    (Real.sqrt (d2 : ℝ) < (s : ℝ)) ↔ (0 < s ∧ d2 < s * s) := by
  constructor
  · intro h
    have hsR : (0 : ℝ) < (s : ℝ) := lt_of_le_of_lt (Real.sqrt_nonneg _) h
    have hs : 0 < s := by exact_mod_cast hsR
    have h2 := (Real.sqrt_lt' hsR).mp h
    rw [pow_two] at h2
    have h3 : (d2 : ℝ) < ((s * s : ℤ) : ℝ) := by push_cast; exact h2
    exact ⟨hs, by exact_mod_cast h3⟩
  · rintro ⟨hs, hlt⟩
    have hsR : (0 : ℝ) < (s : ℝ) := by exact_mod_cast hs
    apply (Real.sqrt_lt' hsR).mpr
    rw [pow_two]
    have h3 : (d2 : ℝ) < ((s * s : ℤ) : ℝ) := by exact_mod_cast hlt
    push_cast at h3
    exact h3

theorem circleTooClose_iff {a b : Circle} :
    circleTooClose a b = true ↔
      (0 < a.radius + b.radius ∧
        (a.x - b.x) * (a.x - b.x) + (a.y - b.y) * (a.y - b.y)
          < (a.radius + b.radius) * (a.radius + b.radius)) := by
  unfold circleTooClose
  simp [Bool.and_eq_true, decide_eq_true_eq]

theorem nonOverlapSq_of_not_tooClose {a b : Circle}
    (h : circleTooClose a b = false) : nonOverlapSq a b := by
  have hnot : ¬(0 < a.radius + b.radius ∧
      (a.x - b.x) * (a.x - b.x) + (a.y - b.y) * (a.y - b.y)
        < (a.radius + b.radius) * (a.radius + b.radius)) := by
    rw [← circleTooClose_iff, h]
    simp
  unfold nonOverlapSq
  by_cases h1 : 0 < a.radius + b.radius
  · right
    by_contra h2
    push_neg at h2
    exact hnot ⟨h1, h2⟩
  · left
    omega

theorem nonOverlapSq_symm {a b : Circle} (h : nonOverlapSq a b) : nonOverlapSq b a := by
  unfold nonOverlapSq at h ⊢
  have e1 : b.radius + a.radius = a.radius + b.radius := by ring
  have e2 : (b.x - a.x) * (b.x - a.x) + (b.y - a.y) * (b.y - a.y)
      = (a.x - b.x) * (a.x - b.x) + (a.y - b.y) * (a.y - b.y) := by ring
  rw [e1, e2]
  exact h

theorem farApart_of_nonOverlapSq {a b : Circle} (h : nonOverlapSq a b) :
    circlesFarApart a b := by
  unfold circlesFarApart
  rw [← not_lt]
  intro hlt
  obtain ⟨h1, h2⟩ := sqrt_lt_sum_iff.mp hlt
  unfold nonOverlapSq at h
  rcases h with h | h
  · omega
  · linarith

theorem canPlaceCircle_contained {cfg : Config} {existing : List Circle} {c : Circle}
    (h : canPlaceCircle cfg existing c = true) : containedIn cfg c := by
  unfold canPlaceCircle at h
  split at h
  · exact absurd h (by simp)
  case _ hb =>
    push_neg at hb
    unfold containedIn
    refine ⟨?_, ?_, ?_, ?_⟩ <;> omega

theorem canPlaceCircle_noOverlap {cfg : Config} {existing : List Circle} {c : Circle}
    (h : canPlaceCircle cfg existing c = true) :
    ∀ e ∈ existing, circleTooClose c e = false := by
  unfold canPlaceCircle at h
  split at h
  · exact absurd h (by simp)
  · rw [List.all_eq_true] at h
    intro e he
    have he' := h e he
    simpa using he'

theorem attemptPlace_some {cfg : Config} {existing : List Circle} {radius : ℤ} :
    ∀ (fuel : ℕ) (r : PosRng) (c : Circle),
      (attemptPlace cfg existing radius fuel r).1 = some c →
      canPlaceCircle cfg existing c = true := by
  intro fuel
  induction fuel with
  | zero => intro r c h; cases h
  | succ a ih =>
    intro r c h
    simp only [attemptPlace] at h
    split at h
    case _ hc =>
      have hcc : c = ⟨(nextPos r).1.1, (nextPos r).1.2, radius, ""⟩ := by
        cases h
        rfl
      rw [hcc]
      exact hc
    case _ => exact ih _ _ h

/-! Placement loops preserve the packing invariant and report exact failure data. -/

theorem getAllCircles_spawn_snoc (spawns : List Circle) (c : Circle) :
    getAllCircles (spawns ++ [c]) []
      = getAllCircles spawns [] ++ [{ c with type := "spawn" }] := by
  unfold getAllCircles
  simp

theorem getAllCircles_bedroom_snoc (spawns bedrooms : List Circle) (c : Circle) :
    getAllCircles spawns (bedrooms ++ [c])
      = getAllCircles spawns bedrooms ++ [{ c with type := "bedroom" }] := by
  unfold getAllCircles
  simp

theorem pairwise_snoc_of_canPlace {cfg : Config} {existing : List Circle} {c c' : Circle}
    (hfields : c'.x = c.x ∧ c'.y = c.y ∧ c'.radius = c.radius)
    (hpw : List.Pairwise nonOverlapSq existing)
    (hcp : canPlaceCircle cfg existing c = true) :
    List.Pairwise nonOverlapSq (existing ++ [c']) := by
  rw [List.pairwise_append]
  refine ⟨hpw, List.pairwise_singleton _ _, ?_⟩
  intro e he c'' hc''
  rw [List.mem_singleton] at hc''
  subst hc''
  have hno : nonOverlapSq e c :=
    nonOverlapSq_symm (nonOverlapSq_of_not_tooClose (canPlaceCircle_noOverlap hcp e he))
  unfold nonOverlapSq at hno ⊢
  rw [hfields.1, hfields.2.1, hfields.2.2]
  exact hno

theorem contained_retype {cfg : Config} {c c' : Circle}
    (hfields : c'.x = c.x ∧ c'.y = c.y ∧ c'.radius = c.radius)
    (h : containedIn cfg c) : containedIn cfg c' := by
  unfold containedIn at h ⊢
  rw [hfields.1, hfields.2.1, hfields.2.2]
  exact h

theorem spawnLoop_ok {cfg : Config} :
    ∀ (fuel : ℕ) (spawns : List Circle) (r : PosRng) (out : List Circle × PosRng),
      spawnLoop cfg spawns fuel r = .ok out →
      out.1.length = spawns.length + fuel ∧
      ((List.Pairwise nonOverlapSq (getAllCircles spawns []) ∧
          ∀ c ∈ getAllCircles spawns [], containedIn cfg c) →
        (List.Pairwise nonOverlapSq (getAllCircles out.1 []) ∧
          ∀ c ∈ getAllCircles out.1 [], containedIn cfg c)) := by
  intro fuel
  induction fuel with
  | zero =>
    intro spawns r out h
    cases h
    exact ⟨by simp, fun hinv => hinv⟩
  | succ rem ih =>
    intro spawns r out h
    simp only [spawnLoop] at h
    split at h
    case _ c hc =>
      have hcp := attemptPlace_some _ _ _ hc
      obtain ⟨hlen, hinv⟩ := ih _ _ _ h
      refine ⟨by rw [hlen]; simp; omega, ?_⟩
      rintro ⟨hpw, hcont⟩
      apply hinv
      rw [getAllCircles_spawn_snoc]
      constructor
      · exact pairwise_snoc_of_canPlace ⟨rfl, rfl, rfl⟩ hpw hcp
      · intro d hd
        rcases List.mem_append.mp hd with hd' | hd'
        · exact hcont d hd'
        · rw [List.mem_singleton] at hd'
          subst hd'
          exact contained_retype ⟨rfl, rfl, rfl⟩ (canPlaceCircle_contained hcp)
    case _ => cases h

theorem spawnLoop_error {cfg : Config} :
    ∀ (fuel : ℕ) (spawns : List Circle) (r : PosRng) (e : PackError),
      spawnLoop cfg spawns fuel r = .error e →
      e.kind = "spawn" ∧ (spawns.length : ℤ) + 1 ≤ e.idx ∧
        e.idx ≤ (spawns.length : ℤ) + fuel ∧ 1 ≤ fuel := by
  intro fuel
  induction fuel with
  | zero => intro spawns r e h; cases h
  | succ rem ih =>
    intro spawns r e h
    simp only [spawnLoop] at h
    split at h
    case _ c hc =>
      obtain ⟨hk, h1, h2, h3⟩ := ih _ _ _ h
      refine ⟨hk, ?_, ?_, by omega⟩
      · simp at h1
        omega
      · simp at h2
        push_cast
        omega
    case _ =>
      cases h
      exact ⟨rfl, by push_cast; omega, by push_cast; omega, by omega⟩

theorem bedroomLoop_ok {cfg : Config} {spawns : List Circle} :
    ∀ (fuel : ℕ) (bedrooms : List Circle) (r : PosRng) (out : List Circle × PosRng),
      bedroomLoop cfg spawns bedrooms fuel r = .ok out →
      out.1.length = bedrooms.length + fuel ∧
      ((List.Pairwise nonOverlapSq (getAllCircles spawns bedrooms) ∧
          ∀ c ∈ getAllCircles spawns bedrooms, containedIn cfg c) →
        (List.Pairwise nonOverlapSq (getAllCircles spawns out.1) ∧
          ∀ c ∈ getAllCircles spawns out.1, containedIn cfg c)) := by
  intro fuel
  induction fuel with
  | zero =>
    intro bedrooms r out h
    cases h
    exact ⟨by simp, fun hinv => hinv⟩
  | succ rem ih =>
    intro bedrooms r out h
    simp only [bedroomLoop] at h
    split at h
    case _ c hc =>
      have hcp := attemptPlace_some _ _ _ hc
      obtain ⟨hlen, hinv⟩ := ih _ _ _ h
      refine ⟨by rw [hlen]; simp; omega, ?_⟩
      rintro ⟨hpw, hcont⟩
      apply hinv
      rw [getAllCircles_bedroom_snoc]
      constructor
      · exact pairwise_snoc_of_canPlace ⟨rfl, rfl, rfl⟩ hpw hcp
      · intro d hd
        rcases List.mem_append.mp hd with hd' | hd'
        · exact hcont d hd'
        · rw [List.mem_singleton] at hd'
          subst hd'
          exact contained_retype ⟨rfl, rfl, rfl⟩ (canPlaceCircle_contained hcp)
    case _ => cases h

theorem bedroomLoop_error {cfg : Config} {spawns : List Circle} :
    ∀ (fuel : ℕ) (bedrooms : List Circle) (r : PosRng) (e : PackError),
      bedroomLoop cfg spawns bedrooms fuel r = .error e →
      e.kind = "bedroom" ∧ (bedrooms.length : ℤ) + 1 ≤ e.idx ∧
        e.idx ≤ (bedrooms.length : ℤ) + fuel ∧ 1 ≤ fuel := by
  intro fuel
  induction fuel with
  | zero => intro bedrooms r e h; cases h
  | succ rem ih =>
    intro bedrooms r e h
    simp only [bedroomLoop] at h
    split at h
    case _ c hc =>
      obtain ⟨hk, h1, h2, h3⟩ := ih _ _ _ h
      refine ⟨hk, ?_, ?_, by omega⟩
      · simp at h1
        omega
      · simp at h2
        push_cast
        omega
    case _ =>
      cases h
      exact ⟨rfl, by push_cast; omega, by push_cast; omega, by omega⟩

/-! Assembly facts about `Generate` and the image-variant packer. -/

theorem initialSpawns_good (cfg : Config) :
    List.Pairwise nonOverlapSq (getAllCircles (initialSpawns cfg) []) ∧
      ∀ c ∈ getAllCircles (initialSpawns cfg) [], containedIn cfg c := by
  unfold initialSpawns
  split
  · split
    case _ hcp =>
      constructor
      · simp only [getAllCircles, List.map_cons, List.map_nil, List.append_nil]
        exact List.pairwise_singleton _ _
      · intro d hd
        simp only [getAllCircles, List.map_cons, List.map_nil, List.append_nil,
          List.mem_singleton] at hd
        subst hd
        exact contained_retype ⟨rfl, rfl, rfl⟩ (canPlaceCircle_contained hcp)
    · simp [getAllCircles]
  · simp [getAllCircles]

theorem initialSpawns_length (cfg : Config) :
    (initialSpawns cfg).length ≤ 1 ∧
      (cfg.spawns ≤ 0 → (initialSpawns cfg).length = 0) := by
  unfold initialSpawns
  split
  case _ hpos =>
    split
    · exact ⟨by simp, fun hle => absurd hpos (by omega)⟩
    · exact ⟨by simp, fun _ => rfl⟩
  · exact ⟨by simp, fun _ => rfl⟩

theorem length_filter_spawn (spawns bedrooms : List Circle) :
    ((getAllCircles spawns bedrooms).filter
      (fun c => decide (c.type = "spawn"))).length = spawns.length := by
  unfold getAllCircles
  rw [List.filter_append, List.length_append]
  have h1 : (spawns.map (fun c => { c with type := "spawn" })).filter
      (fun c => decide (c.type = "spawn"))
      = spawns.map (fun c => { c with type := "spawn" }) := by
    apply List.filter_eq_self.mpr
    intro c hc
    obtain ⟨d, _, rfl⟩ := List.mem_map.mp hc
    simp
  have h2 : (bedrooms.map (fun c => { c with type := "bedroom" })).filter
      (fun c => decide (c.type = "spawn")) = [] := by
    rw [List.filter_eq_nil_iff]
    intro c hc
    obtain ⟨d, _, rfl⟩ := List.mem_map.mp hc
    simp
  rw [h1, h2]
  simp

theorem length_filter_bedroom (spawns bedrooms : List Circle) :
    ((getAllCircles spawns bedrooms).filter
      (fun c => decide (c.type = "bedroom"))).length = bedrooms.length := by
  unfold getAllCircles
  rw [List.filter_append, List.length_append]
  have h1 : (spawns.map (fun c => { c with type := "spawn" })).filter
      (fun c => decide (c.type = "bedroom")) = [] := by
    rw [List.filter_eq_nil_iff]
    intro c hc
    obtain ⟨d, _, rfl⟩ := List.mem_map.mp hc
    simp
  have h2 : (bedrooms.map (fun c => { c with type := "bedroom" })).filter
      (fun c => decide (c.type = "bedroom"))
      = bedrooms.map (fun c => { c with type := "bedroom" }) := by
    apply List.filter_eq_self.mpr
    intro c hc
    obtain ⟨d, _, rfl⟩ := List.mem_map.mp hc
    simp
  rw [h1, h2]
  simp

theorem Generate_ok_facts {cfg : Config} {r : PosRng} {cs : List Circle}
    (h : Generate cfg r = .ok cs) :
    List.Pairwise nonOverlapSq cs ∧ (∀ c ∈ cs, containedIn cfg c) ∧
      (cs.filter (fun c => decide (c.type = "spawn"))).length = cfg.spawns.toNat ∧
      (cs.filter (fun c => decide (c.type = "bedroom"))).length = cfg.bedrooms.toNat := by
  unfold Generate at h
  split at h
  · cases h
  case _ sp hsp =>
    split at h
    · cases h
    case _ bd hbd =>
      cases h
      obtain ⟨hslen, hsinv⟩ := spawnLoop_ok _ _ _ _ hsp
      obtain ⟨hblen, hbinv⟩ := bedroomLoop_ok _ _ _ _ hbd
      have hsgood := hsinv (initialSpawns_good cfg)
      have hbase : List.Pairwise nonOverlapSq (getAllCircles sp.1 []) ∧
          ∀ c ∈ getAllCircles sp.1 [], containedIn cfg c := hsgood
      have hbgood := hbinv (by simpa [getAllCircles] using hbase)
      obtain ⟨h0len, h0zero⟩ := initialSpawns_length cfg
      refine ⟨hbgood.1, hbgood.2, ?_, ?_⟩
      · rw [length_filter_spawn, hslen]
        by_cases hpos : 0 < cfg.spawns
        · omega
        · rw [h0zero (by omega)]
          omega
      · rw [length_filter_bedroom, hblen]
        simp

theorem Generate_error_facts {cfg : Config} {r : PosRng} {e : PackError}
    (h : Generate cfg r = .error e) :
    (e.kind = "spawn" ∧ 1 ≤ e.idx ∧ e.idx ≤ cfg.spawns) ∨
      (e.kind = "bedroom" ∧ 1 ≤ e.idx ∧ e.idx ≤ cfg.bedrooms) := by
  unfold Generate at h
  split at h
  case _ e' he' =>
    cases h
    left
    obtain ⟨hk, h1, h2, h3⟩ := spawnLoop_error _ _ _ _ he'
    obtain ⟨h0len, h0zero⟩ := initialSpawns_length cfg
    refine ⟨hk, by omega, ?_⟩
    by_cases hpos : 0 < cfg.spawns
    · omega
    · rw [h0zero (by omega)] at h1 h2
      omega
  case _ sp hsp =>
    split at h
    case _ e' he' =>
      cases h
      right
      obtain ⟨hk, h1, h2, h3⟩ := bedroomLoop_error _ _ _ _ he'
      simp only [List.length_nil] at h1 h2
      exact ⟨hk, by omega, by omega⟩
    · cases h

namespace ImageGen

theorem intersects_iff {a b : Circle} :
    intersects a b = true ↔
      (0 < a.radius + b.radius ∧
        (a.x - b.x) * (a.x - b.x) + (a.y - b.y) * (a.y - b.y)
          < (a.radius + b.radius) * (a.radius + b.radius)) := by
  unfold intersects
  simp [Bool.and_eq_true, decide_eq_true_eq]

theorem nonOverlapSq_of_not_intersects {a b : Circle}
    (h : intersects a b = false) : nonOverlapSq a b := by
  have hnot : ¬(0 < a.radius + b.radius ∧
      (a.x - b.x) * (a.x - b.x) + (a.y - b.y) * (a.y - b.y)
        < (a.radius + b.radius) * (a.radius + b.radius)) := by
    rw [← intersects_iff, h]
    simp
  unfold nonOverlapSq
  by_cases h1 : 0 < a.radius + b.radius
  · right
    by_contra h2
    push_neg at h2
    exact hnot ⟨h1, h2⟩
  · left
    omega

theorem nonOverlapSq_symm_img {a b : Circle} (h : nonOverlapSq a b) : nonOverlapSq b a := by
  unfold nonOverlapSq at h ⊢
  have e1 : b.radius + a.radius = a.radius + b.radius := by ring
  have e2 : (b.x - a.x) * (b.x - a.x) + (b.y - a.y) * (b.y - a.y)
      = (a.x - b.x) * (a.x - b.x) + (a.y - b.y) * (a.y - b.y) := by ring
  rw [e1, e2]
  exact h

theorem farApart_of_nonOverlapSq_img {a b : Circle} (h : nonOverlapSq a b) :
    circlesFarApart a b := by
  unfold circlesFarApart
  rw [← not_lt]
  intro hlt
  obtain ⟨h1, h2⟩ := sqrt_lt_sum_iff.mp hlt
  unfold nonOverlapSq at h
  rcases h with h | h
  · omega
  · linarith

theorem tryPlaceLoop_pairwise {count radius : ℤ} {isSpawn : Bool} :
    ∀ (fuel : ℕ) (circles : List Circle) (r : PosRng),
      List.Pairwise nonOverlapSq circles →
      List.Pairwise nonOverlapSq (tryPlaceLoop count radius isSpawn fuel circles r).1 := by
  intro fuel
  induction fuel with
  | zero => intro circles r hpw; exact hpw
  | succ a ih =>
    intro circles r hpw
    simp only [tryPlaceLoop]
    split
    · split
      case _ hall =>
        apply ih
        rw [List.pairwise_append]
        refine ⟨hpw, List.pairwise_singleton _ _, ?_⟩
        intro e he c'' hc''
        rw [List.mem_singleton] at hc''
        subst hc''
        rw [List.all_eq_true] at hall
        have hne := hall e he
        simp only [Bool.not_eq_true'] at hne
        exact nonOverlapSq_symm_img (nonOverlapSq_of_not_intersects hne)
      case _ => exact ih _ _ hpw
    · exact hpw

theorem generateCircles_ok_pairwise {mg : MapGenerator} {r : PosRng} {cs : List Circle}
    (h : generateCircles mg r = .ok cs) : List.Pairwise nonOverlapSq cs := by
  unfold generateCircles at h
  dsimp only at h
  split at h
  · cases h
  · cases h
    exact tryPlaceLoop_pairwise _ _ _
      (tryPlaceLoop_pairwise _ _ _ (List.Pairwise.nil))

end ImageGen

/-! Stay-put behaviour: a token whose movement test fails, or that has no
admissible neighbour, is appended back to its own coordinate unconditionally. -/

theorem nextRat_nonneg (r : Rng) : 0 ≤ (nextRat r).1 := by
  unfold nextRat
  obtain ⟨ints, rats⟩ := r
  cases rats with
  | nil => exact le_refl 0
  | cons q rest =>
    dsimp only
    split
    case _ hq => exact hq.1
    case _ => exact le_refl 0

theorem placeToken_stay_of_zero_speed {cfg : Config} {circles : List Circle}
    {speeds : List ℚ} {home : ℤ × ℤ} {val : ℕ} (hz : lookupSpeed speeds val = 0)
    (ns : NState) (r : Rng) :
    (placeToken cfg circles speeds home val ns r).1
      = updFn ns home (ns home ++ [val]) := by
  unfold placeToken
  dsimp only
  rw [hz, if_neg]
  intro hlt
  have h0 : (0 : ℚ) ≤ (nextRat r).1 * 100 :=
    mul_nonneg (nextRat_nonneg r) (by norm_num)
  exact absurd hlt (not_lt.mpr h0)

theorem getNeighbors_isolated {cfg : Config} (hw : cfg.width = 1)
    (hh : cfg.height = 1) : getNeighbors 0 0 cfg = [] := by
  unfold getNeighbors
  rw [hw, hh]
  rfl

theorem placeToken_stay_isolated {cfg : Config} {circles : List Circle}
    {speeds : List ℚ} {val : ℕ} (hw : cfg.width = 1) (hh : cfg.height = 1)
    (ns : NState) (r : Rng) :
    (placeToken cfg circles speeds ((0 : ℤ), (0 : ℤ)) val ns r).1
      = updFn ns (0, 0) (ns (0, 0) ++ [val]) := by
  unfold placeToken
  dsimp only
  split
  · rw [getNeighbors_isolated hw hh]
    rfl
  · rfl

theorem placeVals_stay {cfg : Config} {circles : List Circle} {speeds : List ℚ}
    {home : ℤ × ℤ} :
    ∀ (vals : List ℕ),
      (∀ v ∈ vals, ∀ (ns : NState) (r : Rng),
        (placeToken cfg circles speeds home v ns r).1
          = updFn ns home (ns home ++ [v])) →
      ∀ (ns : NState) (r : Rng) (p : ℤ × ℤ),
        (placeVals cfg circles speeds home vals ns r).1 p
          = if home = p then ns p ++ vals else ns p := by
  intro vals
  induction vals with
  | nil =>
    intro _ ns r p
    simp only [placeVals]
    split <;> simp
  | cons v rest ih =>
    intro hstay ns r p
    simp only [placeVals]
    rw [ih (fun w hw => hstay w (List.mem_cons_of_mem v hw)) _ _ p]
    rw [hstay v (List.mem_cons_self v rest) ns r]
    by_cases hp : home = p
    · subst hp
      rw [if_pos rfl, if_pos rfl, updFn_same]
      simp
    · rw [if_neg hp, if_neg hp, updFn_other _ (fun hq => hp hq.symm)]

theorem moveCells_stay {cfg : Config} {circles : List Circle} {speeds : List ℚ} :
    ∀ (cells : List Cell),
      (∀ c ∈ cells, ∀ v ∈ c.vals, ∀ (ns : NState) (r : Rng),
        (placeToken cfg circles speeds (c.x, c.y) v ns r).1
          = updFn ns (c.x, c.y) (ns (c.x, c.y) ++ [v])) →
      ∀ (ns : NState) (r : Rng) (p : ℤ × ℤ),
        (moveCells cfg circles speeds cells ns r).1 p = ns p ++ occAt cells p := by
  intro cells
  induction cells with
  | nil =>
    intro _ ns r p
    simp only [moveCells, occAt, List.flatMap_nil, List.append_nil]
  | cons c rest ih =>
    intro hstay ns r p
    simp only [moveCells]
    rw [ih (fun d hd => hstay d (List.mem_cons_of_mem c hd)) _ _ p]
    rw [placeVals_stay c.vals (hstay c (List.mem_cons_self c rest)) ns r p]
    rw [occAt_cons]
    by_cases hc : c.x = p.1 ∧ c.y = p.2
    · have hcp : ((c.x, c.y) : ℤ × ℤ) = p := Prod.ext hc.1 hc.2
      rw [if_pos hcp, if_pos hc, List.append_assoc]
    · have hcp : ((c.x, c.y) : ℤ × ℤ) ≠ p := by
        intro hh
        exact hc ⟨congrArg Prod.fst hh, congrArg Prod.snd hh⟩
      rw [if_neg hcp, if_neg hc, List.nil_append]

theorem occAt_out_of_grid {cfg : Config} {cells : List Cell} {p : ℤ × ℤ}
    (hwf : popInBounds cfg cells) (hp : p ∉ gridCoords cfg) : occAt cells p = [] := by
  apply occAt_eq_nil
  intro c hc hcond
  apply hp
  rw [mem_gridCoords]
  have := hwf c hc
  unfold inBoundsP at this ⊢
  rw [← hcond.1, ← hcond.2]
  exact this

theorem moveNumbers_retention {cfg : Config} {circles : List Circle}
    {cells : List Cell} {speeds : List ℚ} {r : Rng} (hne : speeds ≠ [])
    (hwf : popInBounds cfg cells)
    (hstay : ∀ c ∈ cells, ∀ v ∈ c.vals, ∀ (ns : NState) (r' : Rng),
      (placeToken cfg circles speeds (c.x, c.y) v ns r').1
        = updFn ns (c.x, c.y) (ns (c.x, c.y) ++ [v])) :
    ∀ p, occAt (moveNumbers cfg circles cells speeds r) p = occAt cells p := by
  intro p
  unfold moveNumbers
  rw [if_neg hne, occAt_collectCells, moveCells_stay cells hstay _ _ p]
  by_cases hp : p ∈ gridCoords cfg
  · rw [if_pos hp]
    rfl
  · rw [if_neg hp, occAt_out_of_grid hwf hp]

/-! Claim theorems. -/

/-- C6: `moveNumbers` (Advance) invoked with an empty speed table returns a
population identical to its input, for every bounds, circle set, and input
population. -/
theorem C6_noop_on_empty_speeds :
    ∀ (cfg : Config) (circles : List Circle) (cells : List Cell) (r : Rng),
      moveNumbers cfg circles cells [] r = cells := by
  intro cfg circles cells r
  rfl

/-- C2 (amended): token conservation for `moveNumbers` holds for every
bounds, circle set, and valid speed table of any length — including the
empty one — provided every entry of the input population lies within the
bounds (the claim's unrestricted version fails for out-of-bounds entries,
see the counterexample): the total token count of the output equals that of
the input. -/
theorem C2_conservation :
    ∀ (cfg : Config) (circles : List Circle) (cells : List Cell)
      (speeds : List ℚ) (r : Rng), popInBounds cfg cells →
      totalTokens (moveNumbers cfg circles cells speeds r) = totalTokens cells := by
  intro cfg circles cells speeds r hwf
  unfold moveNumbers
  by_cases hs : speeds = []
  · rw [if_pos hs]
  · rw [if_neg hs, totalTokens_collectCells, moveCells_gridSum cells _ r hwf,
      gridSum_empty]
    omega

/-- C1 (amended): after `generateDistribution` every coordinate holds at
most its zone capacity (0 for centre, 1 for interior, 2 for exterior); and
one `moveNumbers` step can exceed a coordinate's capacity only through
tokens retained in place, so each output count is bounded by the zone
capacity plus that coordinate's count in the input population.  (The
original unconditional capacity invariant fails, see the counterexample:
the stay-put path performs no capacity check.) -/
theorem C1_capacity_amended :
    (∀ (cfg : Config) (circles : List Circle) (probs : List ℚ) (r : Rng) (p : ℤ × ℤ),
      (occAt (generateDistribution cfg circles probs r) p).length
        ≤ zoneCap (getCellType p.1 p.2 circles)) ∧
    (∀ (cfg : Config) (circles : List Circle) (cells : List Cell)
        (speeds : List ℚ) (r : Rng) (p : ℤ × ℤ),
      (occAt (moveNumbers cfg circles cells speeds r) p).length
        ≤ zoneCap (getCellType p.1 p.2 circles) + (occAt cells p).length) := by
  constructor
  · intro cfg circles probs r p
    unfold generateDistribution
    by_cases hsel : createProbabilitySelector probs = []
    · rw [if_pos hsel]
      simp [occAt]
    · rw [if_neg hsel]
      by_cases hp : p ∈ gridCoords cfg
      · obtain ⟨r', hr'⟩ :=
          genCells_occAt (gridCoords cfg) r (gridCoords_nodup cfg) p hp
        rw [hr']
        rcases getCellType_total p.1 p.2 circles with h0 | h1 | h2
        · rw [h0]
          have := (cellValsFor_exterior hsel h0 (r := r')).1
          simp only [zoneCap]
          omega
        · rw [h1]
          have := (cellValsFor_interior hsel h1 (r := r')).1
          simp only [zoneCap]
          omega
        · rw [h2, cellValsFor_center h2]
          simp
      · rw [genCells_occAt_nil hp]
        simp
  · intro cfg circles cells speeds r p
    unfold moveNumbers
    by_cases hs : speeds = []
    · rw [if_pos hs]
      omega
    · rw [if_neg hs, occAt_collectCells]
      by_cases hp : p ∈ gridCoords cfg
      · rw [if_pos hp]
        have h := moveCells_len_le cfg circles speeds cells (fun _ => []) r p
        simp only [List.length_nil] at h
        have hmax : max 0 (zoneCap (getCellType p.1 p.2 circles))
            = zoneCap (getCellType p.1 p.2 circles) := Nat.zero_max _
        omega
      · rw [if_neg hp]
        simp

/-- C3 (amended): `getCellType` is total — it returns exactly one of
0 (exterior), 1 (interior), 2 (centre) at every coordinate and circle set —
and a coordinate equal to some circle's centre classifies as centre
provided the circle set is pairwise non-overlapping with positive radii,
as every set produced by the packer is.  (Centre precedence fails for an
arbitrary overlapping circle set, see the counterexample: the first
matching circle in iteration order wins.) -/
theorem C3_classification_amended :
    (∀ (x y : ℤ) (circles : List Circle),
      getCellType x y circles = 0 ∨ getCellType x y circles = 1 ∨
        getCellType x y circles = 2) ∧
    (∀ (x y : ℤ) (circles : List Circle),
      List.Pairwise nonOverlapSq circles → (∀ c ∈ circles, 1 ≤ c.radius) →
      (∃ c ∈ circles, c.x = x ∧ c.y = y) → getCellType x y circles = 2) := by
  constructor
  · exact getCellType_total
  · intro x y circles hpw hrad hex
    obtain ⟨c, hc, hcx, hcy⟩ := hex
    induction circles with
    | nil => cases hc
    | cons a rest ih =>
      simp only [getCellType]
      by_cases h1 : x - a.x = 0 ∧ y - a.y = 0
      · rw [if_pos h1]
      · rw [if_neg h1]
        rcases List.mem_cons.mp hc with rfl | hcrest
        · exact absurd ⟨by omega, by omega⟩ h1
        · have hrel : nonOverlapSq a c := (List.pairwise_cons.mp hpw).1 c hcrest
          have hra : 1 ≤ a.radius := hrad a (List.mem_cons_self a rest)
          have hrc : 1 ≤ c.radius := hrad c (List.mem_cons_of_mem a hcrest)
          by_cases h2 : (x - a.x) * (x - a.x) + (y - a.y) * (y - a.y)
              ≤ a.radius * a.radius
          · exfalso
            unfold nonOverlapSq at hrel
            rw [hcx, hcy] at hrel
            rcases hrel with hrel | hrel
            · omega
            · nlinarith [hrel, h2, hra, hrc]
          · rw [if_neg h2]
            exact ih (List.pairwise_cons.mp hpw).2
              (fun d hd => hrad d (List.mem_cons_of_mem a hd)) hcrest

/-- C4: whenever circle generation succeeds, every pair of distinct circles
in the returned set has centre distance at least the sum of the radii — for
the server variant's `Generate` and for the image variant's
`generateCircles` alike. -/
theorem C4_non_overlap :
    (∀ (cfg : Config) (r : PosRng) (cs : List Circle),
      Generate cfg r = .ok cs → cs.Pairwise circlesFarApart) ∧
    (∀ (mg : ImageGen.MapGenerator) (r : PosRng) (cs : List ImageGen.Circle),
      ImageGen.generateCircles mg r = .ok cs →
        cs.Pairwise ImageGen.circlesFarApart) := by
  constructor
  · intro cfg r cs h
    exact ((Generate_ok_facts h).1).imp farApart_of_nonOverlapSq
  · intro mg r cs h
    exact (ImageGen.generateCircles_ok_pairwise h).imp
      ImageGen.farApart_of_nonOverlapSq_img

/-- C5: whenever `Generate` succeeds, every circle of the returned set lies
fully within the requested bounds: centre ± radius stays inside the
width×height rectangle in both axes. -/
theorem C5_containment :
    ∀ (cfg : Config) (r : PosRng) (cs : List Circle),
      Generate cfg r = .ok cs → ∀ c ∈ cs, containedIn cfg c := by
  intro cfg r cs h
  exact (Generate_ok_facts h).2.1

/-- C7: whenever the weighted selector is non-empty, `generateDistribution`
gives every centre cell zero tokens, every interior cell exactly one token
drawn from the selector, and every exterior cell one or two tokens drawn
from the selector; every returned entry is a non-empty in-bounds cell (the
sparse map omits empty cells). -/
theorem C7_distribution_shape :
    ∀ (cfg : Config) (circles : List Circle) (probs : List ℚ) (r : Rng),
      createProbabilitySelector probs ≠ [] →
      (∀ p ∈ gridCoords cfg,
        (getCellType p.1 p.2 circles = 2 →
          occAt (generateDistribution cfg circles probs r) p = []) ∧
        (getCellType p.1 p.2 circles = 1 →
          (occAt (generateDistribution cfg circles probs r) p).length = 1 ∧
          ∀ t ∈ occAt (generateDistribution cfg circles probs r) p,
            t ∈ createProbabilitySelector probs) ∧
        (getCellType p.1 p.2 circles = 0 →
          (1 ≤ (occAt (generateDistribution cfg circles probs r) p).length ∧
            (occAt (generateDistribution cfg circles probs r) p).length ≤ 2) ∧
          ∀ t ∈ occAt (generateDistribution cfg circles probs r) p,
            t ∈ createProbabilitySelector probs)) ∧
      (∀ c ∈ generateDistribution cfg circles probs r,
        c.vals ≠ [] ∧ (c.x, c.y) ∈ gridCoords cfg) := by
  intro cfg circles probs r hsel
  have hunf : generateDistribution cfg circles probs r
      = genCells circles (createProbabilitySelector probs) (gridCoords cfg) r := by
    unfold generateDistribution
    rw [if_neg hsel]
  constructor
  · intro p hp
    rw [hunf]
    obtain ⟨r', hr'⟩ :=
      genCells_occAt (gridCoords cfg) r (gridCoords_nodup cfg) p hp
    rw [hr']
    refine ⟨?_, ?_, ?_⟩
    · intro h2
      exact cellValsFor_center h2
    · intro h1
      exact cellValsFor_interior hsel h1
    · intro h0
      exact cellValsFor_exterior hsel h0
  · intro c hc
    rw [hunf] at hc
    obtain ⟨hmem, hne⟩ := genCells_coords _ _ _ hc
    exact ⟨hne, hmem⟩

/-- C8 (amended): the selector built by `createProbabilitySelector` gives
token type `i` exactly `⌊probabilities[i]·50⌋` occurrences (clamped at 0) —
not a weight proportional to `probabilities[i]`, see the counterexample —
and when every probability is zero (in particular when the vector is empty)
the selector is empty and `generateDistribution` returns an empty
population. -/
theorem C8_selector_amended :
    (∀ (probs : List ℚ) (i : ℕ), i < probs.length →
      (createProbabilitySelector probs).count i
        = (Rat.floor (probs.getD i 0 * 50)).toNat) ∧
    (∀ (probs : List ℚ), (∀ p ∈ probs, p = 0) →
      createProbabilitySelector probs = [] ∧
      ∀ (cfg : Config) (circles : List Circle) (r : Rng),
        generateDistribution cfg circles probs r = []) := by
  constructor
  · intro probs i hi
    exact createProbabilitySelector_count hi
  · intro probs hz
    have hsel := createProbabilitySelector_all_zero hz
    refine ⟨hsel, ?_⟩
    intro cfg circles r
    unfold generateDistribution
    rw [if_pos hsel]

/-- C9: if any requested circle cannot be placed within its attempt budget,
`Generate` fails with a packing-exhausted error carrying the kind (spawn or
bedroom) and the 1-based index of the circle that could not be placed, the
index lying within the requested count; and no partial circle set is
returned as a valid result — a successful `Generate` returns exactly the
requested number of spawn and bedroom circles. -/
theorem C9_packing_exhausted :
    ∀ (cfg : Config) (r : PosRng),
      (∀ e : PackError, Generate cfg r = .error e →
        (e.kind = "spawn" ∧ 1 ≤ e.idx ∧ e.idx ≤ cfg.spawns) ∨
        (e.kind = "bedroom" ∧ 1 ≤ e.idx ∧ e.idx ≤ cfg.bedrooms)) ∧
      (∀ cs : List Circle, Generate cfg r = .ok cs →
        (cs.filter (fun c => decide (c.type = "spawn"))).length
            = cfg.spawns.toNat ∧
        (cs.filter (fun c => decide (c.type = "bedroom"))).length
            = cfg.bedrooms.toNat) := by
  intro cfg r
  constructor
  · intro e h
    exact Generate_error_facts h
  · intro cs h
    exact ⟨(Generate_ok_facts h).2.2.1, (Generate_ok_facts h).2.2.2⟩

/-- C10: the stay-put path of `moveNumbers` bypasses the capacity check:
a token that does not migrate is appended back to its own coordinate's
next-state list unconditionally.  Consequently (a) tokens whose looked-up
speed is 0 are all retained in place — even on centre cells or on cells at
or above capacity — and (b) on a 1×1 grid, where no admissible neighbour
can exist, every token is retained in place for every speed table, even
when its cell is a circle centre. -/
theorem C10_stay_put_bypass :
    (∀ (cfg : Config) (circles : List Circle) (cells : List Cell)
        (speeds : List ℚ) (r : Rng),
      speeds ≠ [] → popInBounds cfg cells →
      (∀ c ∈ cells, ∀ v ∈ c.vals, lookupSpeed speeds v = 0) →
      ∀ p, occAt (moveNumbers cfg circles cells speeds r) p = occAt cells p) ∧
    (∀ (cfg : Config) (circles : List Circle) (cells : List Cell)
        (speeds : List ℚ) (r : Rng),
      cfg.width = 1 → cfg.height = 1 → speeds ≠ [] →
      (∀ c ∈ cells, c.x = 0 ∧ c.y = 0) →
      ∀ p, occAt (moveNumbers cfg circles cells speeds r) p = occAt cells p) := by
  constructor
  · intro cfg circles cells speeds r hne hwf hz
    exact moveNumbers_retention hne hwf
      (fun c hc v hv ns r' => placeToken_stay_of_zero_speed (hz c hc v hv) ns r')
  · intro cfg circles cells speeds r hw hh hne hzero
    have hwf : popInBounds cfg cells := by
      intro c hc
      obtain ⟨hx, hy⟩ := hzero c hc
      unfold inBoundsP
      rw [hx, hy, hw, hh]
      refine ⟨le_refl 0, by omega, le_refl 0, by omega⟩
    apply moveNumbers_retention hne hwf
    intro c hc v hv ns r'
    obtain ⟨hx, hy⟩ := hzero c hc
    rw [hx, hy]
    exact placeToken_stay_isolated hw hh ns r'

/-! Concrete evaluations: counterexamples and witnesses.  The `Rat`
arithmetic operations are `@[irreducible]` in the library; they are made
semireducible locally so that `decide` can evaluate the embedded programs
on concrete rational inputs. -/

section

attribute [local semireducible] Rat.mul Rat.add Rat.sub Rat.inv

/-- C1 counterexample: a population produced by `generateDistribution`
(two exterior cells holding two tokens each, token types 0 and 1) followed
by one `moveNumbers` step with the valid speed table [100, 0] yields four
tokens on one exterior cell — exceeding its capacity 2: the type-0 tokens
migrate in while the type-1 tokens stay put with no capacity check. -/
theorem C1_capacity_counterexample :
    (∀ sp ∈ ([100, 0] : List ℚ), 0 ≤ sp ∧ sp ≤ 100) ∧
    generateDistribution ⟨2, 1, 0, 0, 0, 0, 0⟩ [] [1, 1] ⟨[1, 0, 0, 1, 50, 50], []⟩
      = [⟨0, 0, [0, 0]⟩, ⟨1, 0, [1, 1]⟩] ∧
    moveNumbers ⟨2, 1, 0, 0, 0, 0, 0⟩ []
        (generateDistribution ⟨2, 1, 0, 0, 0, 0, 0⟩ [] [1, 1]
          ⟨[1, 0, 0, 1, 50, 50], []⟩) [100, 0] ⟨[], []⟩
      = [⟨1, 0, [0, 0, 1, 1]⟩] ∧
    getCellType 1 0 [] = 0 ∧
    ¬((occAt (moveNumbers ⟨2, 1, 0, 0, 0, 0, 0⟩ []
        (generateDistribution ⟨2, 1, 0, 0, 0, 0, 0⟩ [] [1, 1]
          ⟨[1, 0, 0, 1, 50, 50], []⟩) [100, 0] ⟨[], []⟩) (1, 0)).length
      ≤ zoneCap (getCellType 1 0 [])) := by
  decide

/-- C2 counterexample: a caller-supplied population holding one token at
the out-of-bounds coordinate (5,5) of a 1×1 grid loses that token in
`moveNumbers` (valid speed table [0]): the stay-put write lands outside the
collected grid, so the total drops from 1 to 0. -/
theorem C2_conservation_counterexample :
    (∀ sp ∈ ([0] : List ℚ), 0 ≤ sp ∧ sp ≤ 100) ∧
    totalTokens [(⟨5, 5, [0]⟩ : Cell)] = 1 ∧
    moveNumbers ⟨1, 1, 0, 0, 0, 0, 0⟩ [] [⟨5, 5, [0]⟩] [0] ⟨[], []⟩ = [] ∧
    totalTokens (moveNumbers ⟨1, 1, 0, 0, 0, 0, 0⟩ [] [⟨5, 5, [0]⟩] [0] ⟨[], []⟩)
      = 0 := by
  decide

/-- C3 counterexample: in the circle set [centre (0,0) radius 5,
centre (1,0) radius 1] — two overlapping circles, which `getCellType`
accepts as input — the coordinate (1,0) equals the second circle's centre
yet classifies as 1 (interior), not 2 (centre): the first matching circle
in iteration order wins. -/
theorem C3_center_precedence_counterexample :
    ((⟨1, 0, 1, "bedroom"⟩ : Circle) ∈
      [(⟨0, 0, 5, "spawn"⟩ : Circle), ⟨1, 0, 1, "bedroom"⟩]) ∧
    (⟨1, 0, 1, "bedroom"⟩ : Circle).x = 1 ∧
    (⟨1, 0, 1, "bedroom"⟩ : Circle).y = 0 ∧
    getCellType 1 0 [⟨0, 0, 5, "spawn"⟩, ⟨1, 0, 1, "bedroom"⟩] = 1 := by
  decide

/-- C8 counterexample: for the probability vector [1/32, 1/16] the selector
weights are 1 and 3 (`int(p·50)` truncation), which is proportional to no
scaling of the probabilities — a common factor would force the ratio 1 : 2. -/
theorem C8_proportionality_counterexample :
    createProbabilitySelector [mkRat 1 32, mkRat 1 16] = [0, 1, 1, 1] ∧
    ¬ ∃ k : ℚ,
      ((createProbabilitySelector [mkRat 1 32, mkRat 1 16]).count 0 : ℚ)
          = k * mkRat 1 32 ∧
      ((createProbabilitySelector [mkRat 1 32, mkRat 1 16]).count 1 : ℚ)
          = k * mkRat 1 16 := by
  constructor
  · decide
  · rintro ⟨k, h1, h2⟩
    have e : createProbabilitySelector [mkRat 1 32, mkRat 1 16] = [0, 1, 1, 1] := by
      decide
    rw [e] at h1 h2
    have hc0 : ([0, 1, 1, 1] : List ℕ).count 0 = 1 := by decide
    have hc1 : ([0, 1, 1, 1] : List ℕ).count 1 = 3 := by decide
    rw [hc0] at h1
    rw [hc1] at h2
    have hm32 : (mkRat 1 32 : ℚ) = 1 / 32 := by norm_num [Rat.mkRat_eq_div]
    have hm16 : (mkRat 1 16 : ℚ) = 1 / 16 := by norm_num [Rat.mkRat_eq_div]
    rw [hm32] at h1
    rw [hm16] at h2
    push_cast at h1 h2
    linarith

end

section

attribute [local semireducible] Rat.mul Rat.add Rat.sub Rat.inv

/-- C2 witness: conservation instantiated on a concrete in-bounds
population and speed table. -/
theorem C2_conservation_witness :
    popInBounds ⟨2, 1, 0, 0, 0, 0, 0⟩ [⟨0, 0, [0, 0]⟩] ∧
    totalTokens (moveNumbers ⟨2, 1, 0, 0, 0, 0, 0⟩ [] [⟨0, 0, [0, 0]⟩] [100] ⟨[], []⟩)
      = totalTokens [(⟨0, 0, [0, 0]⟩ : Cell)] :=
  ⟨by decide, C2_conservation ⟨2, 1, 0, 0, 0, 0, 0⟩ [] [⟨0, 0, [0, 0]⟩] [100] ⟨[], []⟩ (by decide)⟩

/-- C3 witness: centre precedence instantiated on a concrete
non-overlapping circle set with positive radii. -/
theorem C3_classification_witness :
    (List.Pairwise nonOverlapSq
        [(⟨0, 0, 2, "spawn"⟩ : Circle), ⟨10, 0, 2, "bedroom"⟩] ∧
      (∀ c ∈ [(⟨0, 0, 2, "spawn"⟩ : Circle), ⟨10, 0, 2, "bedroom"⟩], 1 ≤ c.radius) ∧
      (∃ c ∈ [(⟨0, 0, 2, "spawn"⟩ : Circle), ⟨10, 0, 2, "bedroom"⟩],
        c.x = 10 ∧ c.y = 0)) ∧
    getCellType 10 0 [⟨0, 0, 2, "spawn"⟩, ⟨10, 0, 2, "bedroom"⟩] = 2 :=
  ⟨⟨by decide, by decide, by decide⟩,
    C3_classification_amended.2 10 0 _ (by decide) (by decide) (by decide)⟩

/-- C4 witness: non-overlap instantiated on concrete successful runs of
both packers. -/
theorem C4_non_overlap_witness :
    Generate ⟨10, 10, 1, 0, 2, 0, 0⟩ ⟨[]⟩ = .ok [⟨5, 5, 2, "spawn"⟩] ∧
    ([(⟨5, 5, 2, "spawn"⟩ : Circle)]).Pairwise circlesFarApart ∧
    ImageGen.generateCircles ⟨10, 10, 1, 0, 50, 50, 5, 100⟩ ⟨[(500, 500)]⟩
      = .ok [⟨500, 500, 50, true⟩] ∧
    ([(⟨500, 500, 50, true⟩ : ImageGen.Circle)]).Pairwise ImageGen.circlesFarApart :=
  ⟨by rfl,
    C4_non_overlap.1 ⟨10, 10, 1, 0, 2, 0, 0⟩ ⟨[]⟩ [⟨5, 5, 2, "spawn"⟩] (by rfl),
    by rfl,
    C4_non_overlap.2 ⟨10, 10, 1, 0, 50, 50, 5, 100⟩ ⟨[(500, 500)]⟩
      [⟨500, 500, 50, true⟩] (by rfl)⟩

/-- C5 witness: containment instantiated on a concrete successful
`Generate` run. -/
theorem C5_containment_witness :
    Generate ⟨8, 8, 1, 0, 3, 0, 0⟩ ⟨[]⟩ = .ok [⟨4, 4, 3, "spawn"⟩] ∧
    ∀ c ∈ [(⟨4, 4, 3, "spawn"⟩ : Circle)], containedIn ⟨8, 8, 1, 0, 3, 0, 0⟩ c :=
  ⟨by rfl, C5_containment ⟨8, 8, 1, 0, 3, 0, 0⟩ ⟨[]⟩ [⟨4, 4, 3, "spawn"⟩] (by rfl)⟩

/-- C7 witness: the distribution shape instantiated on a concrete 1×1 grid
with a non-empty selector: the single exterior cell receives one or two
tokens. -/
theorem C7_distribution_witness :
    createProbabilitySelector [1] ≠ [] ∧
    (1 ≤ (occAt (generateDistribution ⟨1, 1, 0, 0, 0, 0, 0⟩ [] [1] ⟨[0, 0], []⟩)
        ((0 : ℤ), (0 : ℤ))).length ∧
      (occAt (generateDistribution ⟨1, 1, 0, 0, 0, 0, 0⟩ [] [1] ⟨[0, 0], []⟩)
        ((0 : ℤ), (0 : ℤ))).length ≤ 2) :=
  ⟨by decide,
    (((C7_distribution_shape ⟨1, 1, 0, 0, 0, 0, 0⟩ [] [1] ⟨[0, 0], []⟩
      (by decide)).1 (0, 0) (by decide)).2.2 (by decide)).1⟩

/-- C8 witness: the exact selector weight instantiated at probability 1/16
(weight ⌊50/16⌋ = 3), and the all-zero case giving an empty selector and an
empty population. -/
theorem C8_selector_witness :
    (0 : ℕ) < ([mkRat 1 16] : List ℚ).length ∧
    (createProbabilitySelector [mkRat 1 16]).count 0
        = (Rat.floor (([mkRat 1 16] : List ℚ).getD 0 0 * 50)).toNat ∧
    (∀ p ∈ ([(0 : ℚ)] : List ℚ), p = 0) ∧
    createProbabilitySelector [(0 : ℚ)] = [] ∧
    generateDistribution ⟨1, 1, 0, 0, 0, 0, 0⟩ [] [(0 : ℚ)] ⟨[], []⟩ = [] :=
  ⟨by decide, C8_selector_amended.1 [mkRat 1 16] 0 (by decide), by decide,
    (C8_selector_amended.2 [(0 : ℚ)] (by decide)).1,
    (C8_selector_amended.2 [(0 : ℚ)] (by decide)).2 ⟨1, 1, 0, 0, 0, 0, 0⟩ [] ⟨[], []⟩⟩

set_option maxRecDepth 100000 in
/-- C9 witness: a concrete failing run (spawn radius 5 on a 1×1 grid)
yielding the packing-exhausted error for spawn index 1, and a concrete
successful run returning exactly the requested spawn and bedroom counts. -/
theorem C9_packing_witness :
    Generate ⟨1, 1, 1, 0, 5, 0, 0⟩ ⟨[]⟩ = .error ⟨"spawn", 1⟩ ∧
    ((("spawn" : String) = "spawn" ∧ (1 : ℤ) ≤ 1 ∧ (1 : ℤ) ≤ 1) ∨
      (("spawn" : String) = "bedroom" ∧ (1 : ℤ) ≤ 1 ∧ (1 : ℤ) ≤ 0)) ∧
    Generate ⟨10, 10, 1, 1, 2, 2, 0⟩ ⟨[(2, 2)]⟩
      = .ok [⟨5, 5, 2, "spawn"⟩, ⟨2, 2, 2, "bedroom"⟩] ∧
    (([(⟨5, 5, 2, "spawn"⟩ : Circle), ⟨2, 2, 2, "bedroom"⟩]).filter
        (fun c => decide (c.type = "spawn"))).length = 1 ∧
    (([(⟨5, 5, 2, "spawn"⟩ : Circle), ⟨2, 2, 2, "bedroom"⟩]).filter
        (fun c => decide (c.type = "bedroom"))).length = 1 :=
  ⟨by rfl,
    (C9_packing_exhausted ⟨1, 1, 1, 0, 5, 0, 0⟩ ⟨[]⟩).1 ⟨"spawn", 1⟩ (by rfl),
    by rfl,
    ((C9_packing_exhausted ⟨10, 10, 1, 1, 2, 2, 0⟩ ⟨[(2, 2)]⟩).2
      [⟨5, 5, 2, "spawn"⟩, ⟨2, 2, 2, "bedroom"⟩] (by rfl)).1,
    ((C9_packing_exhausted ⟨10, 10, 1, 1, 2, 2, 0⟩ ⟨[(2, 2)]⟩).2
      [⟨5, 5, 2, "spawn"⟩, ⟨2, 2, 2, "bedroom"⟩] (by rfl)).2⟩

/-- C10 witness: three tokens sitting on a circle-centre coordinate
(capacity 0, already above it) are all retained in place by `moveNumbers`
with the valid speed table [0]. -/
theorem C10_stay_put_witness :
    getCellType 0 0 [⟨0, 0, 1, "spawn"⟩] = 2 ∧
    occAt [(⟨0, 0, [5, 5, 5]⟩ : Cell)] ((0 : ℤ), (0 : ℤ)) = [5, 5, 5] ∧
    occAt (moveNumbers ⟨2, 2, 0, 0, 0, 0, 0⟩ [⟨0, 0, 1, "spawn"⟩]
        [⟨0, 0, [5, 5, 5]⟩] [0] ⟨[], []⟩) ((0 : ℤ), (0 : ℤ))
      = occAt [(⟨0, 0, [5, 5, 5]⟩ : Cell)] ((0 : ℤ), (0 : ℤ)) :=
  ⟨by decide, by decide,
    C10_stay_put_bypass.1 ⟨2, 2, 0, 0, 0, 0, 0⟩ [⟨0, 0, 1, "spawn"⟩]
      [⟨0, 0, [5, 5, 5]⟩] [0] ⟨[], []⟩ (by decide) (by decide) (by decide) (0, 0)⟩

end

end Fast
